import Mathlib

/-!
Verification development for the SymIR toolchain (connglli/symlang).

This file shallowly embeds the parts of the C++ source that the checked
claims are about:

* the SMT term language built through the abstract solver interface
  (include/solver/smt.hpp), as a deep datatype of terms, together with a
  small evaluator used to state semantic properties of the terms the
  symbolic executor builds;
* the type utilities (src/analysis/type_utils.cpp);
* the type checker's literal range check and condition check
  (src/frontend/typechecker.cpp);
* the CFG builder (src/analysis/cfgbuilder.cpp);
* the definite-initialization analysis (src/analysis/definite_init.cpp);
* the symbolic executor (src/solver/solver.cpp).

Source spans and node ids are dropped: they are diagnostic metadata and no
checked property depends on them.  C++ exceptions are modelled with
`Except String`; diagnostic bags are modelled as lists of message strings.
-/

namespace Symir

/-! ## SMT sorts, kinds and terms (include/solver/smt.hpp)

The executor talks to the solver only through sort and term constructors,
so the solver state is modelled away: a term is the tree of constructor
calls that produced it. -/

/-- SMT sorts: bitvector of a width, floating point with exponent and
significand widths, boolean. -/
inductive SmtSort where
  | bv (w : Nat)
  | fp (e s : Nat)
  | bool
deriving DecidableEq, Repr

/-- Operation kinds of the abstract solver interface (smt.hpp `Kind`),
restricted to the kinds the symbolic executor uses. -/
inductive SKind where
  | BV_ADD | BV_SUB | BV_MUL | BV_SDIV | BV_SREM
  | BV_AND | BV_OR | BV_XOR | BV_NOT
  | BV_SHL | BV_ASHR | BV_SHR
  | BV_SLT | BV_SLE | BV_SGT | BV_SGE | BV_ULT
  | EQUAL | DISTINCT
  | ITE | AND | OR | NOT | IMPLIES
  | BV_SADD_OVERFLOW | BV_SSUB_OVERFLOW | BV_SMUL_OVERFLOW
  | FP_ADD | FP_SUB | FP_MUL | FP_DIV | FP_REM
  | FP_EQUAL | FP_LT | FP_LEQ | FP_GT | FP_GEQ
  | FP_TO_SBV | FP_TO_FP_FROM_SBV | FP_TO_FP_FROM_FP
  | BV_SIGN_EXTEND | BV_EXTRACT
deriving DecidableEq, Repr

/-- Deeply embedded solver terms.  `null` models a default-constructed
`smt::Term` (read e.g. from the `term` field of an aggregate symbolic
value); `bvVal s v` models `make_bv_value`/`make_bv_value_int64`/
`make_bv_zero`/`make_bv_min_signed` (the integer the decimal string
denotes); `fpVal` models `make_fp_value` with the literal's rendering;
`const` models `make_const`; `mk` models `make_term` with its kind,
arguments and indices. -/
inductive Term where
  | null
  | tru
  | fls
  | bvVal (s : SmtSort) (v : Int)
  | fpVal (s : SmtSort) (v : String)
  | const (s : SmtSort) (name : String)
  | mk (k : SKind) (args : List Term) (idx : List Nat)

/-- The sort of a term, as the concrete solver's `get_sort` computes it
(`none` where the solver would fail, e.g. on a null term). -/
def sortOf : Term → Option SmtSort
  | .null => none
  | .tru => some .bool
  | .fls => some .bool
  | .bvVal s _ => some s
  | .fpVal s _ => some s
  | .const s _ => some s
  | .mk k args idx =>
    match k with
    | .BV_SLT | .BV_SLE | .BV_SGT | .BV_SGE | .BV_ULT
    | .EQUAL | .DISTINCT | .AND | .OR | .NOT | .IMPLIES
    | .BV_SADD_OVERFLOW | .BV_SSUB_OVERFLOW | .BV_SMUL_OVERFLOW
    | .FP_EQUAL | .FP_LT | .FP_LEQ | .FP_GT | .FP_GEQ => some .bool
    | .BV_ADD | .BV_SUB | .BV_MUL | .BV_SDIV | .BV_SREM
    | .BV_AND | .BV_OR | .BV_XOR | .BV_NOT
    | .BV_SHL | .BV_ASHR | .BV_SHR
    | .FP_ADD | .FP_SUB | .FP_MUL | .FP_DIV | .FP_REM =>
      match args with
      | a :: _ => sortOf a
      | [] => none
    | .ITE =>
      match args with
      | _ :: a :: _ => sortOf a
      | _ => none
    | .BV_SIGN_EXTEND =>
      match args with
      | a :: _ =>
        match sortOf a, idx with
        | some (.bv w), n :: _ => some (.bv (w + n))
        | _, _ => none
      | [] => none
    | .BV_EXTRACT =>
      match idx with
      | hi :: lo :: _ => some (.bv (hi - lo + 1))
      | _ => none
    | .FP_TO_SBV =>
      match idx with
      | w :: _ => some (.bv w)
      | [] => none
    | .FP_TO_FP_FROM_SBV | .FP_TO_FP_FROM_FP =>
      match idx with
      | e :: s :: _ => some (.fp e s)
      | _ => none

/-- Whether a sort is a floating-point sort (`is_fp_sort`). -/
def SmtSort.isFp : SmtSort → Bool
  | .fp _ _ => true
  | _ => false

/-- Bitvector width of a sort (`get_bv_width`; 0 where the solver would
fail on a non-bv sort). -/
def SmtSort.bvWidth : SmtSort → Nat
  | .bv w => w
  | _ => 0

/-- The exponent/significand dimensions of an fp sort (`get_fp_dims`;
(0,0) where the solver would fail on a non-fp sort). -/
def SmtSort.fpDims : SmtSort → Nat × Nat
  | .fp e s => (e, s)
  | _ => (0, 0)

/-- The term `make_bv_zero` builds for a sort. -/
def mkBvZero (s : SmtSort) : Term := .bvVal s 0

/-- The term `make_bv_min_signed` builds for a bitvector sort: the value
with only the sign bit set, i.e. the signed minimum. -/
def mkBvMinSigned (s : SmtSort) : Term :=
  match s with
  | .bv w => .bvVal (.bv w) (-((2 : Int) ^ (w - 1)))
  | s => .bvVal s 0

/-! ## Evaluation of terms

A spec-side instrument (not from the source): terms are given their
standard SMT-LIB meaning so that properties of the term trees the
executor builds can be stated semantically.  An environment assigns an
integer to every constant name; a bitvector value is kept as its unsigned
residue. -/

/-- A first-order SMT value: a bitvector of a width (unsigned residue) or
a boolean. -/
inductive SVal where
  | bv (w : Nat) (v : Nat)
  | b (x : Bool)
deriving DecidableEq, Repr

/-- Signed reading of an unsigned `w`-bit residue. -/
def toSigned (w : Nat) (v : Nat) : Int :=
  if v < 2 ^ (w - 1) then (v : Int) else (v : Int) - 2 ^ w

/-- Evaluate a term under an environment for its constants.  Partial:
floating-point terms and ill-sorted applications evaluate to `none`.
`ITE` evaluates only the selected branch. -/
def evalT (env : String → Int) : Term → Option SVal
  | .null => none
  | .tru => some (.b true)
  | .fls => some (.b false)
  | .bvVal (.bv w) v => some (.bv w (v.emod ((2 : Int) ^ w)).toNat)
  | .bvVal _ _ => none
  | .fpVal _ _ => none
  | .const (.bv w) name => some (.bv w ((env name).emod ((2 : Int) ^ w)).toNat)
  | .const _ _ => none
  | .mk .ITE [c, a, b] _ =>
    match evalT env c with
    | some (.b true) => evalT env a
    | some (.b false) => evalT env b
    | _ => none
  | .mk .EQUAL [a, b] _ =>
    match evalT env a, evalT env b with
    | some (.bv w1 v1), some (.bv w2 v2) =>
      if w1 = w2 then some (.b (v1 = v2)) else none
    | some (.b x), some (.b y) => some (.b (x = y))
    | _, _ => none
  | .mk .DISTINCT [a, b] _ =>
    match evalT env a, evalT env b with
    | some (.bv w1 v1), some (.bv w2 v2) =>
      if w1 = w2 then some (.b (v1 ≠ v2)) else none
    | some (.b x), some (.b y) => some (.b (x ≠ y))
    | _, _ => none
  | .mk .NOT [a] _ =>
    match evalT env a with
    | some (.b x) => some (.b (!x))
    | _ => none
  | .mk .AND [a, b] _ =>
    match evalT env a, evalT env b with
    | some (.b x), some (.b y) => some (.b (x && y))
    | _, _ => none
  | .mk .OR [a, b] _ =>
    match evalT env a, evalT env b with
    | some (.b x), some (.b y) => some (.b (x || y))
    | _, _ => none
  | .mk .IMPLIES [a, b] _ =>
    match evalT env a, evalT env b with
    | some (.b x), some (.b y) => some (.b (!x || y))
    | _, _ => none
  | .mk .BV_SLE [a, b] _ =>
    match evalT env a, evalT env b with
    | some (.bv w1 v1), some (.bv w2 v2) =>
      if w1 = w2 then some (.b (decide (toSigned w1 v1 ≤ toSigned w2 v2))) else none
    | _, _ => none
  | .mk .BV_SLT [a, b] _ =>
    match evalT env a, evalT env b with
    | some (.bv w1 v1), some (.bv w2 v2) =>
      if w1 = w2 then some (.b (decide (toSigned w1 v1 < toSigned w2 v2))) else none
    | _, _ => none
  | .mk _ _ _ => none

/-! ## AST types (include/ast/ast.hpp)

`TypePtr` is a `shared_ptr<Type>`: the embedding keeps the pointed-to
tree together with the pointer's address, because `areTypesEqual` starts
with an address comparison.  A null pointer is its own constructor. -/

/-- Integer type kinds (ast.hpp `IntType::Kind`). -/
inductive IntKind where
  | i32
  | i64
  | icustom
deriving DecidableEq, Repr

/-- Float type kinds (ast.hpp `FloatType::Kind`). -/
inductive FloatKind where
  | f32
  | f64
deriving DecidableEq, Repr

mutual
/-- An AST `Type` node: the variant payload (ast.hpp `Type::Variant`).
The optional `bits` of an integer type is kept as a natural number (the
parser only stores nonnegative widths). -/
inductive TyNode where
  | int (kind : IntKind) (bits : Option Nat)
  | float (kind : FloatKind)
  | strct (name : String)
  | array (size : Nat) (elem : TyPtr)

/-- A `TypePtr`: null, or an address paired with the node it points to. -/
inductive TyPtr where
  | null
  | ref (addr : Nat) (node : TyNode)
end

/-- Pointer equality of two `TypePtr`s (`a.get() == b.get()`): both null,
or the same address. -/
def TyPtr.ptrEq : TyPtr → TyPtr → Bool
  | .null, .null => true
  | .ref a _, .ref b _ => a = b
  | _, _ => false

/-- The variant index of a type node (`Type::Variant::index()`). -/
def TyNode.variantIdx : TyNode → Nat
  | .int _ _ => 0
  | .float _ => 1
  | .strct _ => 2
  | .array _ _ => 3

/-! ## Type utilities (src/analysis/type_utils.cpp) -/

/-- `TypeUtils::getBitWidth`: the width of an integer type, `none` for
anything else (`ICustom` with absent bits reads as 0). -/
def getBitWidth : TyPtr → Option Nat
  | .null => none
  | .ref _ (.int .i32 _) => some 32
  | .ref _ (.int .i64 _) => some 64
  | .ref _ (.int .icustom bits) => some (bits.getD 0)
  | .ref _ _ => none

/-- Whether a type is the float variant (`holds_alternative<FloatType>`),
with its kind when it is. -/
def asFloat : TyPtr → Option FloatKind
  | .ref _ (.float k) => some k
  | _ => none

/-- The width the checker associates with a float kind. -/
def floatKindBits : FloatKind → Nat
  | .f32 => 32
  | .f64 => 64

/-- `TypeUtils::areTypesEqual`, line for line: pointer equality first;
false if either is null; false on differing variant indices; then the
`IntType`, `StructType` and `ArrayType` cases.  The source has no
`FloatType` case, so two float nodes at different addresses fall through
to the final `return false`. -/
def areTypesEqual : TyPtr → TyPtr → Bool
  | a, b =>
    if a.ptrEq b then true
    else
      match a, b with
      | .null, _ => false
      | _, .null => false
      | .ref _ na, .ref _ nb =>
        if na.variantIdx ≠ nb.variantIdx then false
        else
          match na, nb with
          | .int ka ba, .int kb bb =>
            if ka ≠ kb then false
            else if ka = .icustom then ba = bb
            else true
          | .strct sa, .strct sb => sa = sb
          | .array sa ea, .array sb eb => sa = sb && areTypesEqual ea eb
          | _, _ => false

/-! ## Type checker: literal range check (src/frontend/typechecker.cpp)

Diagnostics are modelled as the list of error messages a call appends to
the `DiagBag`. -/

/-- `TypeChecker::checkLiteralRange`: no check for widths of 64 and
above; otherwise an error when the literal is outside
of the window from `-2^(bits-1)` up to `2^bits - 1`. -/
def checkLiteralRange (val : Int) (bits : Nat) : List String :=
  if bits ≥ 64 then []
  else
    let min : Int := -((2 : Int) ^ (bits - 1))
    let max : Int := (2 : Int) ^ bits - 1
    if val < min ∨ val > max then
      ["Literal " ++ toString val ++ " out of range for i" ++ toString bits ++
        " ([" ++ toString min ++ ", " ++ toString max ++ "])"]
    else []

/-! ## AST expressions, instructions and declarations (include/ast/ast.hpp)

Identifiers keep only their names.  A `FloatLit` keeps the rendering of
its `double` payload as a string: no checked claim depends on
floating-point numerics, only on which terms are built from the literal. -/

/-- A local (`%x`) or symbolic (`%?x`) identifier. -/
inductive LocalOrSymId where
  | loc (name : String)
  | sym (name : String)

/-- The name carried by either identifier kind. -/
def LocalOrSymId.name : LocalOrSymId → String
  | .loc n => n
  | .sym n => n

/-- A coefficient: integer literal, float literal, or identifier. -/
inductive Coef where
  | intLit (v : Int)
  | floatLit (v : String)
  | id (x : LocalOrSymId)

/-- An array index: integer literal or identifier (ast.hpp `Index`). -/
inductive IndexE where
  | lit (v : Int)
  | id (x : LocalOrSymId)

/-- One access segment of an lvalue: `[i]` or `.field`. -/
inductive Access where
  | index (i : IndexE)
  | field (name : String)

/-- An lvalue: a base local followed by access segments. -/
structure LVal where
  base : String
  accesses : List Access

/-- An arm of a select: an lvalue read or a coefficient. -/
inductive SelectVal where
  | rv (l : LVal)
  | cf (c : Coef)

/-- Binary operator kinds of `OpAtom`. -/
inductive AtomOp where
  | mul | div | mod | and | or | xor | shl | shr | lshr
deriving DecidableEq

/-- The `+`/`-` operators chaining atoms in an expression. -/
inductive AddOp where
  | plus | minus

/-- Relational operators of conditions. -/
inductive RelOp where
  | eq | ne | lt | le | gt | ge

/-- The source of a cast atom (ast.hpp `CastAtom::Variant`). -/
inductive CastSrc where
  | ilit (v : Int)
  | flit (v : String)
  | sym (name : String)
  | lval (l : LVal)

mutual
/-- An atom.  `UnaryAtom`'s operator enum has the single member `Not`,
so the constructor carries no operator field. -/
inductive Atom where
  | opA (op : AtomOp) (coef : Coef) (rval : LVal)
  | selectA (cond : Cond) (vtrue vfalse : SelectVal)
  | coefA (coef : Coef)
  | rvalA (rval : LVal)
  | castA (src : CastSrc) (dstType : TyPtr)
  | unaryA (rval : LVal)

/-- A linear expression: a first atom and a tail of operator/atom pairs. -/
inductive Expr where
  | mk (first : Atom) (rest : List (AddOp × Atom))

/-- A condition: comparison of two expressions. -/
inductive Cond where
  | mk (lhs : Expr) (op : RelOp) (rhs : Expr)
end

/-- The first atom of an expression. -/
def Expr.first : Expr → Atom
  | .mk a _ => a

/-- The tail of an expression. -/
def Expr.rest : Expr → List (AddOp × Atom)
  | .mk _ r => r

/-- The left-hand expression of a condition. -/
def Cond.lhs : Cond → Expr
  | .mk l _ _ => l

/-- The relational operator of a condition. -/
def Cond.op : Cond → RelOp
  | .mk _ o _ => o

/-- The right-hand expression of a condition. -/
def Cond.rhs : Cond → Expr
  | .mk _ _ r => r

/-- An instruction: assignment, assume, or require. -/
inductive Instr where
  | assignI (lhs : LVal) (rhs : Expr)
  | assumeI (cond : Cond)
  | requireI (cond : Cond) (msg : Option String)

/-- A terminator, mirroring `BrTerm`'s field layout (`cond`, `dest`,
`thenLabel`, `elseLabel`, `isConditional`), `RetTerm` and
`UnreachableTerm`. -/
inductive Terminator where
  | br (cond : Option Cond) (dest thenLabel elseLabel : String) (isConditional : Bool)
  | ret (value : Option Expr)
  | unreachable

/-- A basic block. -/
structure Block where
  label : String
  instrs : List Instr
  term : Terminator

/-- A symbol's declared domain. -/
inductive DomainD where
  | interval (lo hi : Int)
  | set (values : List Int)

/-- Symbol kinds. -/
inductive SymKind where
  | value | coefK | indexK

/-- A `sym` declaration. -/
structure SymDeclD where
  name : String
  kind : SymKind
  type : TyPtr
  domain : Option DomainD

/-- An initializer value (ast.hpp `InitVal`). -/
inductive InitValD where
  | int (v : Int)
  | float (v : String)
  | sym (name : String)
  | loc (name : String)
  | undef
  | aggregate (elems : List InitValD)

/-- Whether an initializer is the `Undef` variant (`iv.kind == Undef`). -/
def InitValD.isUndef : InitValD → Bool
  | .undef => true
  | _ => false

/-- A `let` declaration. -/
structure LetDeclD where
  isMutable : Bool
  name : String
  type : TyPtr
  init : Option InitValD

/-- A parameter declaration. -/
structure ParamDeclD where
  name : String
  type : TyPtr

/-- A struct declaration: name and ordered fields. -/
structure StructDeclD where
  name : String
  fields : List (String × TyPtr)

/-- A function declaration. -/
structure FunDecl where
  name : String
  params : List ParamDeclD
  retType : TyPtr
  syms : List SymDeclD
  lets : List LetDeclD
  blocks : List Block

/-- A program. -/
structure Program where
  structs : List StructDeclD
  funs : List FunDecl

/-! ## CFG builder (src/analysis/cfgbuilder.cpp)

The C++ `vector<vector<size_t>>` adjacency lists (always indexed within
bounds) are modelled as index functions defaulting to `[]`, and the
label-to-index `unordered_map` as a function to `Option Nat`. -/

/-- The CFG: indexed block labels, label lookup, successor and
predecessor adjacency, entry index. -/
structure Cfg where
  blocks : List String
  indexOf : String → Option Nat
  succ : Nat → List Nat
  pred : Nat → List Nat
  entry : Nat

/-- The empty CFG a failed build returns. -/
def emptyCfg : Cfg where
  blocks := []
  indexOf := fun _ => none
  succ := fun _ => []
  pred := fun _ => []
  entry := 0

/-- Pointwise update of an adjacency function. -/
def updAdj (f : Nat → List Nat) (i : Nat) (v : List Nat) : Nat → List Nat :=
  fun j => if j = i then v else f j

/-- The block-indexing loop of `CFG::build`: walk blocks in order, skip
duplicate labels with an error, record label-to-index entries and the
surviving label list. -/
def indexBlocks : List Block → Nat → (String → Option Nat) → List String → List String →
    ((String → Option Nat) × List String × List String)
  | [], _, m, keys, ds => (m, keys, ds)
  | b :: bs, i, m, keys, ds =>
    match m b.label with
    | some _ => indexBlocks bs (i + 1) m keys (ds ++ ["Duplicate block label: " ++ b.label])
    | none =>
      indexBlocks bs (i + 1) (fun k => if k = b.label then some i else m k)
        (keys ++ [b.label]) ds

/-- `add_edge`: resolve the target label; unknown labels are an error and
the edge is skipped; otherwise push onto `succ[src]` and `pred[dst]`. -/
def addEdge (g : Cfg) (ds : List String) (src : Nat) (toLabel : String) :
    Cfg × List String :=
  match g.indexOf toLabel with
  | none => (g, ds ++ ["Unknown block label: " ++ toLabel])
  | some dst =>
    ({ g with
        succ := updAdj g.succ src (g.succ src ++ [dst])
        pred := updAdj g.pred dst (g.pred dst ++ [src]) }, ds)

/-- The terminator-edge loop of `CFG::build`: a conditional branch with a
present condition adds its then and else edges, an unconditional branch
adds its destination edge, returns and unreachables add none. -/
def edgeBlocks : List Block → Nat → Cfg → List String → Cfg × List String
  | [], _, g, ds => (g, ds)
  | b :: bs, i, g, ds =>
    match b.term with
    | .br cond dest thenL elseL isCond =>
      if isCond then
        match cond with
        | some _ =>
          let (g1, ds1) := addEdge g ds i thenL
          let (g2, ds2) := addEdge g1 ds1 i elseL
          edgeBlocks bs (i + 1) g2 ds2
        | none => edgeBlocks bs (i + 1) g ds
      else
        let (g1, ds1) := addEdge g ds i dest
        edgeBlocks bs (i + 1) g1 ds1
    | .ret _ => edgeBlocks bs (i + 1) g ds
    | .unreachable => edgeBlocks bs (i + 1) g ds

/-- `CFG::build`: index the blocks, pick the entry (`^entry` when
declared, else block 0), then build the edges. -/
def CfgBuild (f : FunDecl) : Cfg × List String :=
  if f.blocks.isEmpty then (emptyCfg, ["Function has no blocks"])
  else
    let (m, keys, ds0) := indexBlocks f.blocks 0 (fun _ => none) [] []
    let entry := (m "^entry").getD 0
    let g0 : Cfg :=
      { blocks := keys, indexOf := m, succ := fun _ => [], pred := fun _ => [], entry := entry }
    edgeBlocks f.blocks 0 g0 ds0

/-- Reverse postorder, with the DFS of `CFG::rpo` driven by explicit
fuel (the visited-set argument bounds the C++ recursion; fuel plays that
role here and `CfgRpo` supplies enough of it). -/
def rpoDfs (g : Cfg) : Nat → Nat → List Nat → List Nat → (List Nat × List Nat)
  | 0, _, vis, order => (vis, order)
  | fuel + 1, u, vis, order =>
    let vis1 := vis ++ [u]
    let (vis2, order2) :=
      (g.succ u).foldl
        (fun (acc : List Nat × List Nat) v =>
          if v ∈ acc.1 then acc else rpoDfs g fuel v acc.1 acc.2)
        (vis1, order)
    (vis2, order2 ++ [u])

/-- `CFG::rpo`: DFS post-order from the entry, reversed. -/
def CfgRpo (g : Cfg) : List Nat :=
  ((rpoDfs g (g.blocks.length + 1) g.entry [] []).2).reverse

/-! ## Definite-initialization analysis (src/analysis/definite_init.cpp)

`InitSet` (an `unordered_map<string,bool>`) is an association list; the
`state.count(x) && !state.at(x)` read test is a lookup returning
`some false`. -/

namespace DefiniteInitAnalysis

/-- The init-state map. -/
abbrev InitSet := List (String × Bool)

/-- Lookup in an init set (`count`/`at`). -/
def lookupIS (s : InitSet) (k : String) : Option Bool :=
  match s with
  | [] => none
  | (k2, v) :: rest => if k2 = k then some v else lookupIS rest k

/-- Map update (`state[k] = v`): replace the binding, appending when the
key is absent. -/
def setIS (s : InitSet) (k : String) (v : Bool) : InitSet :=
  match s with
  | [] => [(k, v)]
  | (k2, v2) :: rest => if k2 = k then (k2, v) :: setIS rest k v else (k2, v2) :: setIS rest k v

/-- `makeAllFalse`: every parameter and let name mapped to false. -/
def makeAllFalse (f : FunDecl) : InitSet :=
  f.params.map (fun p => (p.name, false)) ++ f.lets.map (fun l => (l.name, false))

/-- `makeAllTrue`: every parameter and let name mapped to true. -/
def makeAllTrue (f : FunDecl) : InitSet :=
  f.params.map (fun p => (p.name, true)) ++ f.lets.map (fun l => (l.name, true))

/-- `sameInitSet`: equal sizes and every binding of `a` found in `b`. -/
def sameInitSet (a b : InitSet) : Bool :=
  a.length == b.length &&
    a.all (fun kv => lookupIS b kv.1 == some kv.2)

/-- `meetAND`: pointwise conjunction over the keys of `a`.  The source
reads `b.at(key)`, which would throw on a missing key; `run` only ever
meets maps over one shared key set, so the default is never read. -/
def meetAND (a b : InitSet) : InitSet :=
  a.map (fun kv => (kv.1, kv.2 && (lookupIS b kv.1).getD false))

/-- The `checkLValue` lambda of `transferBlock`: an error when the base
is tracked and currently false. -/
def checkLValue (state : InitSet) (lv : LVal) : List String :=
  if lookupIS state lv.base = some false then
    ["Read of possibly uninitialized local: " ++ lv.base]
  else []

/-- The coefficient read check of `transferBlock`'s visitor (local
identifiers only; symbols are never tracked). -/
def checkCoefRead (state : InitSet) (c : Coef) (msg : String) : List String :=
  match c with
  | .id (.loc n) =>
    if lookupIS state n = some false then [msg ++ n] else []
  | _ => []

mutual
/-- The `checkAtom` lambda of `transferBlock`: reads in `OpAtom`
coefficients and rvalues, `SelectAtom` conditions, `RValueAtom` lvalues
and `CoefAtom` coefficients.  The source visitor has no case for
`CastAtom` or `UnaryAtom`, so those fall through without any check. -/
def checkAtom (state : InitSet) : Atom → List String
  | .opA _ coef rval =>
    checkCoefRead state coef "Read of uninitialized local in coef: " ++
      checkLValue state rval
  | .selectA (.mk clhs _ crhs) _ _ =>
    checkExpr state clhs ++ checkExpr state crhs
  | .rvalA rval => checkLValue state rval
  | .coefA coef => checkCoefRead state coef "Read of uninitialized local: "
  | .castA _ _ => []
  | .unaryA _ => []

/-- The `checkExpr` lambda of `transferBlock`. -/
def checkExpr (state : InitSet) : Expr → List String
  | .mk first rest =>
    checkAtom state first ++ checkExprTail state rest

/-- The loop of `checkExpr` over the expression tail. -/
def checkExprTail (state : InitSet) : List (AddOp × Atom) → List String
  | [] => []
  | (_, a) :: rest => checkAtom state a ++ checkExprTail state rest
end

/-- The instruction loop of `transferBlock`. -/
def transferInstrs (instrs : List Instr) (state : InitSet) (ds : List String) :
    InitSet × List String :=
  match instrs with
  | [] => (state, ds)
  | .assignI lhs rhs :: rest =>
    transferInstrs rest (setIS state lhs.base true) (ds ++ checkExpr state rhs)
  | .assumeI cond :: rest =>
    transferInstrs rest state (ds ++ checkExpr state cond.lhs ++ checkExpr state cond.rhs)
  | .requireI cond _ :: rest =>
    transferInstrs rest state (ds ++ checkExpr state cond.lhs ++ checkExpr state cond.rhs)

/-- The terminator checks of `transferBlock`. -/
def transferTerm (t : Terminator) (state : InitSet) : List String :=
  match t with
  | .br cond _ _ _ isCond =>
    if isCond then
      match cond with
      | some c => checkExpr state c.lhs ++ checkExpr state c.rhs
      | none => []
    else []
  | .ret value =>
    match value with
    | some e => checkExpr state e
    | none => []
  | .unreachable => []

/-- `transferBlock`: walk the instructions, flagging uninitialized
reads and setting assignment targets, then check the terminator's
expressions. -/
def transferBlock (b : Block) (state : InitSet) : InitSet × List String :=
  let (state1, ds1) := transferInstrs b.instrs state []
  (state1, ds1 ++ transferTerm b.term state1)

/-- The entry state seeded into `in[entry]` (lines 22 to 29 of the
source): parameters true, lets true when they carry a non-`Undef`
initializer. -/
def entryStart (f : FunDecl) : InitSet :=
  let s0 := makeAllFalse f
  let s1 := f.params.foldl (fun s p => setIS s p.name true) s0
  f.lets.foldl
    (fun s l =>
      match l.init with
      | some iv => if iv.isUndef then s else setIS s l.name true
      | none => s)
    s1

/-- Association-list map from block names to init sets. -/
abbrev BlockMap := List (String × InitSet)

/-- Lookup in a block map. -/
def lookupBM (m : BlockMap) (k : String) : Option InitSet :=
  match m with
  | [] => none
  | (k2, v) :: rest => if k2 = k then some v else lookupBM rest k

/-- Update in a block map (`in[name] = v`). -/
def setBM (m : BlockMap) (k : String) (v : InitSet) : BlockMap :=
  match m with
  | [] => [(k, v)]
  | (k2, v2) :: rest => if k2 = k then (k2, v) :: setBM rest k v else (k2, v2) :: setBM rest k v

/-- Lines 13 to 31 of `run`: initialize `in[*] = out[*] = makeAllFalse`
for every block of the CFG (the source names this map `top`), then
replace the entry block's in-state with the entry state. -/
def initialInOut (f : FunDecl) (cfg : Cfg) : BlockMap × BlockMap :=
  let top := makeAllFalse f
  let inM : BlockMap := cfg.blocks.map (fun b => (b, top))
  let outM : BlockMap := cfg.blocks.map (fun b => (b, top))
  let entryName := (cfg.blocks.get? cfg.entry).getD ""
  (setBM inM entryName (entryStart f), outM)

/-- One block step of the RPO sweep inside `run`'s fixpoint loop. -/
def sweepBlock (f : FunDecl) (cfg : Cfg) (idx : Nat)
    (st : BlockMap × BlockMap × List String × Bool) :
    BlockMap × BlockMap × List String × Bool :=
  let (inM, outM, ds, changed) := st
  let name := (cfg.blocks.get? idx).getD ""
  match f.blocks.get? idx with
  | none => (inM, outM, ds, changed)
  | some b =>
    let (inM1, changed1) :=
      if idx ≠ cfg.entry ∧ cfg.pred idx ≠ [] then
        let meet :=
          (cfg.pred idx).foldl
            (fun acc pidx =>
              meetAND acc ((lookupBM outM ((cfg.blocks.get? pidx).getD "")).getD []))
            (makeAllTrue f)
        if sameInitSet ((lookupBM inM name).getD []) meet then (inM, changed)
        else (setBM inM name meet, true)
      else (inM, changed)
    let (newOut, ds2) := transferBlock b ((lookupBM inM1 name).getD [])
    if sameInitSet ((lookupBM outM name).getD []) newOut then (inM1, outM, ds ++ ds2, changed1)
    else (inM1, setBM outM name newOut, ds ++ ds2, true)

/-- One full RPO sweep. -/
def sweep (f : FunDecl) (cfg : Cfg) (rpo : List Nat)
    (inM outM : BlockMap) (ds : List String) :
    BlockMap × BlockMap × List String × Bool :=
  rpo.foldl (fun st idx => sweepBlock f cfg idx st) (inM, outM, ds, false)

/-- The bounded fixpoint loop of `run` (`while changed && iter++ < 100`). -/
def iterate (f : FunDecl) (cfg : Cfg) (rpo : List Nat) :
    Nat → BlockMap → BlockMap → List String → BlockMap × BlockMap × List String
  | 0, inM, outM, ds => (inM, outM, ds)
  | fuel + 1, inM, outM, ds =>
    let (inM1, outM1, ds1, changed) := sweep f cfg rpo inM outM ds
    if changed then iterate f cfg rpo fuel inM1 outM1 ds1 else (inM1, outM1, ds1)

/-- `DefiniteInitAnalysis::run`: initialize the in/out maps, seed the
entry, then sweep the RPO to a fixpoint (at most 100 sweeps), collecting
diagnostics from every sweep. -/
def run (f : FunDecl) (cfg : Cfg) : List String :=
  let (inM, outM) := initialInOut f cfg
  let rpo := CfgRpo cfg
  (iterate f cfg rpo 100 inM outM []).2.2

end DefiniteInitAnalysis

/-! ## Type checker: expression and condition typing
(src/frontend/typechecker.cpp)

Scope maps (`unordered_map<string, VarInfo>` etc.) are modelled as
lookup functions.  `Ty` mirrors the checker's inferred-type variant.
Freshly built `Type` nodes (from literal inference) get address 0: they
are only ever inspected structurally, never pointer-compared. -/

namespace TypeChecker

/-- The checker's inferred type (typechecker.hpp `Ty`): bool, bitvector
with a width, float with a width, or the monostate. -/
inductive Ty where
  | boolT
  | bv (bits : Nat)
  | floatT (bits : Nat)
  | unk

/-- `Ty::isBV`. -/
def Ty.isBV : Ty → Bool
  | .bv _ => true
  | _ => false

/-- `Ty::bvBits` (only read behind `isBV` guards in the source). -/
def Ty.bvBits : Ty → Nat
  | .bv b => b
  | _ => 0

/-- `Ty::isFloat`. -/
def Ty.isFloat : Ty → Bool
  | .floatT _ => true
  | _ => false

/-- `Ty::floatBits` (only read behind `isFloat` guards in the source). -/
def Ty.floatBits : Ty → Nat
  | .floatT b => b
  | _ => 0

/-- Per-variable scope information. -/
structure VarInfo where
  type : TyPtr
  isMutable : Bool
  isParam : Bool

/-- Per-symbol scope information. -/
structure SymInfo where
  type : TyPtr
  kind : SymKind

/-- Variable scope map. -/
abbrev Vars := String → Option VarInfo

/-- Symbol scope map. -/
abbrev Syms := String → Option SymInfo

/-- Declared structs: name to ordered field list (`StructInfo`). -/
abbrev Structs := String → Option (List (String × TyPtr))

/-- `TypeChecker::checkIndex`. -/
def checkIndex (idx : IndexE) (vars : Vars) (syms : Syms) : List String :=
  match idx with
  | .lit _ => []
  | .id (.loc n) =>
    match vars n with
    | none => ["Undeclared local index: " ++ n]
    | some vi => if getBitWidth vi.type = none then ["Non-integer index"] else []
  | .id (.sym n) =>
    match syms n with
    | none => ["Undeclared symbol index: " ++ n]
    | some si => if getBitWidth si.type = none then ["Non-integer symbol index"] else []

/-- The access loop of `TypeChecker::typeOfLValue`. -/
def typeOfLValueGo (accesses : List Access) (cur : TyPtr) (vars : Vars) (syms : Syms)
    (structs : Structs) (ds : List String) : TyPtr × List String :=
  match accesses with
  | [] => (cur, ds)
  | .index i :: rest =>
    match cur with
    | .ref _ (.array _ elem) =>
      typeOfLValueGo rest elem vars syms structs (ds ++ checkIndex i vars syms)
    | _ => (.null, ds ++ ["Indexing non-array"])
  | .field fld :: rest =>
    match cur with
    | .ref _ (.strct sname) =>
      match structs sname with
      | none => (.null, ds ++ ["Unknown struct type: " ++ sname])
      | some fieldList =>
        match (fieldList.find? (fun p => p.1 = fld)).map (fun p => p.2) with
        | none =>
          (.null, ds ++ ["Unknown field '" ++ fld ++ "' in struct " ++ sname])
        | some ft => typeOfLValueGo rest ft vars syms structs ds
    | _ => (.null, ds ++ ["Field access on non-struct"])

/-- `TypeChecker::typeOfLValue`: resolve the base, then walk the
accesses. -/
def typeOfLValue (lv : LVal) (vars : Vars) (syms : Syms) (structs : Structs) :
    TyPtr × List String :=
  match vars lv.base with
  | none => (.null, ["Undeclared local: " ++ lv.base])
  | some vi => typeOfLValueGo lv.accesses vi.type vars syms structs []

/-- `TypeChecker::typeOfCoef`: literals are inferred under the expected
width (integer literals are range-checked); identifiers yield their
declared type, or null when out of scope. -/
def typeOfCoef (c : Coef) (vars : Vars) (syms : Syms)
    (expectedBits : Option Nat) : TyPtr × List String :=
  match c with
  | .intLit v =>
    let bits := expectedBits.getD 32
    let ds := checkLiteralRange v bits
    let node : TyNode :=
      if bits = 32 then .int .i32 none
      else if bits = 64 then .int .i64 none
      else .int .icustom (some bits)
    (.ref 0 node, ds)
  | .floatLit _ =>
    let bits := expectedBits.getD 32
    (.ref 0 (.float (if bits = 64 then .f64 else .f32)), [])
  | .id (.loc n) =>
    match vars n with
    | some vi => (vi.type, [])
    | none => (.null, [])
  | .id (.sym n) =>
    match syms n with
    | some si => (si.type, [])
    | none => (.null, [])

/-- `TypeChecker::typeOfSelectVal`: type the arm as an lvalue or a
coefficient, then classify. -/
def typeOfSelectVal (sv : SelectVal) (vars : Vars) (syms : Syms) (structs : Structs)
    (expectedBits : Option Nat) : Ty × List String :=
  let (t, ds) :=
    match sv with
    | .rv l => typeOfLValue l vars syms structs
    | .cf c => typeOfCoef c vars syms expectedBits
  match getBitWidth t with
  | some bits => (.bv bits, ds)
  | none =>
    match asFloat t with
    | some fk => (.floatT (floatKindBits fk), ds)
    | none => (.unk, ds)

mutual
/-- `TypeChecker::typeOfAtom` (typechecker.cpp lines 338 to 446). -/
def typeOfAtom (a : Atom) (vars : Vars) (syms : Syms) (structs : Structs)
    (expectedBits : Option Nat) : Ty × List String :=
  match a with
  | .opA op coef rval =>
    let (rt, ds1) := typeOfLValue rval vars syms structs
    match getBitWidth rt with
    | some w =>
      let (ct, ds2) := typeOfCoef coef vars syms (some w)
      let ds3 :=
        match getBitWidth ct with
        | some cw => if cw ≠ w then ["Bitwidth mismatch in operation"] else []
        | none => []
      (.bv w, ds1 ++ ds2 ++ ds3)
    | none =>
      match asFloat rt with
      | some fk =>
        let bits := floatKindBits fk
        let dsOp :=
          if op ≠ AtomOp.mul ∧ op ≠ AtomOp.div ∧ op ≠ AtomOp.mod then
            ["Invalid operator for float type"]
          else []
        let (ct, ds2) := typeOfCoef coef vars syms (some bits)
        let dsCf :=
          match asFloat ct with
          | none => ["Coefficient must be float"]
          | some cfk =>
            if floatKindBits cfk ≠ bits then ["Float width mismatch in operation"] else []
        (.floatT bits, ds1 ++ dsOp ++ ds2 ++ dsCf)
      | none => (.unk, ds1)
  | .unaryA rval =>
    let (rt, ds1) := typeOfLValue rval vars syms structs
    match getBitWidth rt with
    | some w => (.bv w, ds1)
    | none => (.unk, ds1 ++ ["Unary op not supported for float"])
  | .selectA cond vtrue vfalse =>
    let dsC := checkCond cond vars syms structs
    let (t1, ds1) := typeOfSelectVal vtrue vars syms structs expectedBits
    let (t2, ds2) := typeOfSelectVal vfalse vars syms structs expectedBits
    let dsW :=
      if t1.isBV ∧ t2.isBV ∧ t1.bvBits ≠ t2.bvBits then ["Select width mismatch"] else []
    let dsF :=
      if t1.isFloat ∧ t2.isFloat ∧ t1.floatBits ≠ t2.floatBits then
        ["Select float width mismatch"]
      else []
    let dsK :=
      if t1.isBV ≠ t2.isBV ∨ t1.isFloat ≠ t2.isFloat then ["Select type mismatch"] else []
    (t1, dsC ++ ds1 ++ ds2 ++ dsW ++ dsF ++ dsK)
  | .coefA coef =>
    let (ct, ds) := typeOfCoef coef vars syms expectedBits
    match getBitWidth ct with
    | some w => (.bv w, ds)
    | none =>
      match asFloat ct with
      | some fk => (.floatT (floatKindBits fk), ds)
      | none => (.unk, ds)
  | .rvalA rval =>
    let (rt, ds) := typeOfLValue rval vars syms structs
    match getBitWidth rt with
    | some w => (.bv w, ds)
    | none =>
      match asFloat rt with
      | some fk => (.floatT (floatKindBits fk), ds)
      | none => (.unk, ds)
  | .castA src dstType =>
    let dsSrc :=
      match src with
      | .ilit _ => []
      | .flit _ => []
      | .sym _ => []
      | .lval lv => (typeOfLValue lv vars syms structs).2
    match dstType with
    | .ref _ (.int kind bits) =>
      (.bv (bits.getD (if kind = IntKind.i32 then 32 else 64)), dsSrc)
    | .ref _ (.float fk) => (.floatT (floatKindBits fk), dsSrc)
    | _ => (.unk, dsSrc ++ ["Destination of 'as' must be scalar"])

/-- The tail loop of `TypeChecker::typeOfExpr`: each tail atom is typed
under the seed type's width; kind and width disagreements along the
plus/minus chain are errors.  The seed type is returned unchanged. -/
def typeOfExprTail (t : Ty) (rest : List (AddOp × Atom)) (vars : Vars) (syms : Syms)
    (structs : Structs) (expectedBits : Option Nat) : List String :=
  match rest with
  | [] => []
  | (_, a) :: more =>
    let (ti, dsA) :=
      typeOfAtom a vars syms structs
        (if t.isBV then some t.bvBits
         else if t.isFloat then some t.floatBits
         else expectedBits)
    let ds1 := if t.isBV ∧ ti.isBV ∧ t.bvBits ≠ ti.bvBits then ["Bitwidth mismatch"] else []
    let ds2 :=
      if t.isFloat ∧ ti.isFloat ∧ t.floatBits ≠ ti.floatBits then ["Float width mismatch"]
      else []
    let ds3 :=
      if t.isBV ≠ ti.isBV ∨ t.isFloat ≠ ti.isFloat then
        ["Mixed integer/float arithmetic not allowed"]
      else []
    dsA ++ ds1 ++ ds2 ++ ds3 ++ typeOfExprTail t more vars syms structs expectedBits

/-- `TypeChecker::typeOfExpr`. -/
def typeOfExpr (e : Expr) (vars : Vars) (syms : Syms) (structs : Structs)
    (expectedBits : Option Nat) : Ty × List String :=
  match e with
  | .mk first rest =>
    let (t, ds) := typeOfAtom first vars syms structs expectedBits
    (t, ds ++ typeOfExprTail t rest vars syms structs expectedBits)

/-- `TypeChecker::checkCond`: type both sides (the right side under the
left side's width when that is a bitvector) and report a bitwidth
mismatch only when both sides are bitvectors. -/
def checkCond (c : Cond) (vars : Vars) (syms : Syms) (structs : Structs) : List String :=
  match c with
  | .mk lhs _ rhs =>
    let (t1, ds1) := typeOfExpr lhs vars syms structs none
    let (t2, ds2) :=
      typeOfExpr rhs vars syms structs (if t1.isBV then some t1.bvBits else none)
    let ds3 :=
      if t1.isBV ∧ t2.isBV ∧ t1.bvBits ≠ t2.bvBits then ["Bitwidth mismatch in condition"]
      else []
    ds1 ++ ds2 ++ ds3
end

end TypeChecker

/-! ## Symbolic executor (src/solver/solver.cpp)

C++ exceptions become `Except String`; the mutable `pathConstraints`
vector is threaded as an explicit list.  Solver terms are the deep
`Term` trees built through the interface. -/

/-- Shorthand for `make_term` with no indices. -/
def tmk (k : SKind) (args : List Term) : Term := .mk k args []

namespace SymbolicExecutor

/-- A symbolic value (solver.hpp `SymbolicValue`): undefined kind (the
default), a scalar holding a value term and a definedness term, an
array of element values, or a struct of field values. -/
inductive SymVal where
  | undef
  | scalar (term : Term) (is_defined : Term)
  | array (elems : List SymVal)
  | strct (fields : List (String × SymVal))

/-- Reading the `term` member: the default (null) term on non-scalar
kinds. -/
def SymVal.termOf : SymVal → Term
  | .scalar t _ => t
  | _ => .null

/-- Reading the `is_defined` member: the default (null) term on
non-scalar kinds. -/
def SymVal.definedOf : SymVal → Term
  | .scalar _ d => d
  | _ => .null

/-- The `arrayVal` member: empty on non-array kinds. -/
def SymVal.arrayValOf : SymVal → List SymVal
  | .array es => es
  | _ => []

/-- The symbolic store, name to value. -/
abbrev Store := List (String × SymVal)

/-- Store lookup. -/
def lookupSV : Store → String → Option SymVal
  | [], _ => none
  | (k, v) :: rest, n => if k = n then some v else lookupSV rest n

/-- `store.at(name)`: throws on a missing name. -/
def storeAt (store : Store) (n : String) : Except String SymVal :=
  match lookupSV store n with
  | some v => .ok v
  | none => .error ("store.at: " ++ n)

/-- `store[name] = v`: replace or append. -/
def setSV : Store → String → SymVal → Store
  | [], n, v => [(n, v)]
  | (k, v2) :: rest, n, v =>
    if k = n then (k, v) :: setSV rest n v else (k, v2) :: setSV rest n v

/-- Field lookup in a struct value. -/
def lookupFld : List (String × SymVal) → String → Option SymVal
  | [], _ => none
  | (k, v) :: rest, n => if k = n then some v else lookupFld rest n

/-- Field update in a struct value. -/
def setFld : List (String × SymVal) → String → SymVal → List (String × SymVal)
  | [], n, v => [(n, v)]
  | (k, v2) :: rest, n, v =>
    if k = n then (k, v) :: setFld rest n v else (k, v2) :: setFld rest n v

/-- `SymbolicExecutor::getSort`: integer widths map to bitvector sorts
(`ICustom` with absent bits reads as 32), floats to (8,24) and (11,53);
aggregates (and a null type) throw. -/
def getSort (t : TyPtr) : Except String SmtSort :=
  match t with
  | .ref _ (.int .i32 _) => .ok (.bv 32)
  | .ref _ (.int .i64 _) => .ok (.bv 64)
  | .ref _ (.int .icustom bits) => .ok (.bv (bits.getD 32))
  | .ref _ (.float .f32) => .ok (.fp 8 24)
  | .ref _ (.float .f64) => .ok (.fp 11 53)
  | _ => .error "Aggregate types do not have a single SMT sort in this encoding"

/-- `get_sort` on a term: fails on terms the solver would reject. -/
def getSortT (t : Term) : Except String SmtSort :=
  match sortOf t with
  | some s => .ok s
  | none => .error "get_sort on ill-formed term"

/-- The executor's struct table (`structs_`), built from the program's
struct declarations (duplicate struct names are rejected upstream). -/
def structsOf (prog : Program) : String → Option (List (String × TyPtr)) :=
  fun n => (prog.structs.find? (fun s => s.name = n)).map (fun s => s.fields)

/-- Struct table type. -/
abbrev StructMap := String → Option (List (String × TyPtr))

/-- `SymbolicExecutor::createSymbolicValue`: fresh constants at every
scalar leaf with `is_defined = true`, recursing through aggregates.  The
source's recursion through by-name struct references is bounded here by
explicit fuel (cyclic struct types would not terminate in the source
either; checked programs have none). -/
def createSymbolicValue (structs : StructMap) : Nat → TyPtr → String → Except String SymVal
  | 0, _, _ => .error "struct recursion depth exceeded"
  | fuel + 1, t, name =>
    match t with
    | .ref _ (.array size elem) => do
      let elems ← (List.range size).mapM
        (fun i => createSymbolicValue structs fuel elem (name ++ "[" ++ toString i ++ "]"))
      .ok (.array elems)
    | .ref _ (.strct sname) =>
      match structs sname with
      | none => .ok (.strct [])
      | some fields => do
        let fs ← fields.mapM (fun p => do
          let v ← createSymbolicValue structs fuel p.2 (name ++ "." ++ p.1)
          pure (p.1, v))
        .ok (.strct fs)
    | _ => do
      let s ← getSort t
      .ok (.scalar (.const s name) .tru)

/-- `SymbolicExecutor::makeUndef`: fresh constants named `undef` with
`is_defined = false` at every scalar leaf. -/
def makeUndef (structs : StructMap) : Nat → TyPtr → Except String SymVal
  | 0, _ => .error "struct recursion depth exceeded"
  | fuel + 1, t =>
    match t with
    | .ref _ (.array size elem) => do
      let elems ← (List.range size).mapM (fun _ => makeUndef structs fuel elem)
      .ok (.array elems)
    | .ref _ (.strct sname) =>
      match structs sname with
      | none => .ok (.strct [])
      | some fields => do
        let fs ← fields.mapM (fun p => do
          let v ← makeUndef structs fuel p.2
          pure (p.1, v))
        .ok (.strct fs)
    | _ => do
      let s ← getSort t
      .ok (.scalar (.const s "undef") .fls)

/-- `SymbolicExecutor::broadcast`: replicate one scalar term over every
leaf of the target shape, each leaf defined. -/
def broadcast (structs : StructMap) : Nat → TyPtr → Term → Except String SymVal
  | 0, _, _ => .error "struct recursion depth exceeded"
  | fuel + 1, t, val =>
    match t with
    | .ref _ (.array size elem) => do
      let elems ← (List.range size).mapM (fun _ => broadcast structs fuel elem val)
      .ok (.array elems)
    | .ref _ (.strct sname) =>
      match structs sname with
      | none => .ok (.strct [])
      | some fields => do
        let fs ← fields.mapM (fun p => do
          let v ← broadcast structs fuel p.2 val
          pure (p.1, v))
        .ok (.strct fs)
    | _ => .ok (.scalar val .tru)

/-- `SymbolicExecutor::evalInit`: undef initializers produce undef
leaves; aggregate initializers recurse by position; scalar initializers
build one term (integer literals through the target's sort, so a scalar
literal against an aggregate target throws in `getSort`, as in the
source) and broadcast it. -/
def evalInit (structs : StructMap) (store : Store) :
    Nat → InitValD → TyPtr → Except String SymVal
  | 0, _, _ => .error "struct recursion depth exceeded"
  | fuel + 1, iv, t =>
    match iv with
    | .undef => makeUndef structs (fuel + 1) t
    | .aggregate elements =>
      match t with
      | .ref _ (.array _ elem) => do
        let elems ← elements.mapM (fun e => evalInit structs store fuel e elem)
        .ok (.array elems)
      | .ref _ (.strct sname) =>
        match structs sname with
        | none => .ok (.strct [])
        | some fields => do
          let fs ← (List.zip fields elements).mapM (fun p => do
            let v ← evalInit structs store fuel p.2 p.1.2
            pure (p.1.1, v))
          .ok (.strct fs)
      | _ =>
        -- an aggregate initializer against a scalar target falls
        -- through the source's scalar path with a default (null) term
        broadcast structs (fuel + 1) t .null
    | .int v => do
      let s ← getSort t
      broadcast structs (fuel + 1) t (.bvVal s v)
    | .float v => do
      let s ← getSort t
      broadcast structs (fuel + 1) t (.fpVal s v)
    | .sym n => do
      let sv ← storeAt store n
      broadcast structs (fuel + 1) t sv.termOf
    | .loc n => do
      let sv ← storeAt store n
      broadcast structs (fuel + 1) t sv.termOf

/-- The scalar fold of `mergeAggregate` (the loop over indices 1 to
n-1): each step wraps the accumulator in an `ITE` on `idx = i`. -/
def mergeScalarGo (ws : SmtSort) (idxT : Term) :
    Nat → List SymVal → Term × Term → Term × Term
  | _, [], acc => acc
  | i, e :: rest, (res, defd) =>
    let cond := tmk .EQUAL [idxT, .bvVal ws (i : Int)]
    mergeScalarGo ws idxT (i + 1) rest
      (tmk .ITE [cond, e.termOf, res], tmk .ITE [cond, e.definedOf, defd])

/-- Column extraction for the aggregate cases of `mergeAggregate`
(`elements[i].arrayVal[j]`; an out-of-range access is undefined in the
source and an error here). -/
def colAt : List SymVal → Nat → Except String (List SymVal)
  | [], _ => .ok []
  | e :: es, j => do
    match e.arrayValOf.get? j with
    | some v => do
      let vs ← colAt es j
      .ok (v :: vs)
    | none => .error "arrayVal index out of range"

/-- Field-column extraction (`elements[i].structVal.at(fld)`, which
throws on a missing key). -/
def fieldColAt : List SymVal → String → Except String (List SymVal)
  | [], _ => .ok []
  | e :: es, fld =>
    match e with
    | .strct fs =>
      match lookupFld fs fld with
      | some v => do
        let vs ← fieldColAt es fld
        .ok (v :: vs)
      | none => .error "structVal.at: missing field"
    | _ => .error "structVal.at: missing field"

mutual
/-- `SymbolicExecutor::mergeAggregate`, dispatching on the first
element's kind: scalars fold into a nested `ITE` chain over
`idx = 1, …, n-1` with element 0 as the default; arrays and structs
recurse componentwise. -/
def mergeGo : SymVal → List SymVal → Term → Except String SymVal
  | .undef, _, _ => .ok .undef
  | .scalar t d, rest, idxT => do
    let ws ← getSortT idxT
    let (r, df) := mergeScalarGo ws idxT 1 rest (t, d)
    .ok (.scalar r df)
  | .array elems0, rest, idxT => do
    let merged ← mergeCols elems0 rest idxT 0
    .ok (.array merged)
  | .strct fields0, rest, idxT => do
    let merged ← mergeFlds fields0 rest idxT
    .ok (.strct merged)

/-- The inner-index loop of `mergeAggregate`'s array case. -/
def mergeCols : List SymVal → List SymVal → Term → Nat → Except String (List SymVal)
  | [], _, _, _ => .ok []
  | e :: es, rest, idxT, j => do
    let col ← colAt rest j
    let v ← mergeGo e col idxT
    let vs ← mergeCols es rest idxT (j + 1)
    .ok (v :: vs)

/-- The field loop of `mergeAggregate`'s struct case. -/
def mergeFlds : List (String × SymVal) → List SymVal → Term →
    Except String (List (String × SymVal))
  | [], _, _ => .ok []
  | (fld, e) :: fs, rest, idxT => do
    let col ← fieldColAt rest fld
    let v ← mergeGo e col idxT
    let vs ← mergeFlds fs rest idxT
    .ok ((fld, v) :: vs)
end

/-- `mergeAggregate` proper: the undef kind on an empty element list. -/
def mergeAggregate (elements : List SymVal) (idxT : Term) : Except String SymVal :=
  match elements with
  | [] => .ok .undef
  | e0 :: rest => mergeGo e0 rest idxT

/-- The access loop of `SymbolicExecutor::evalLValue`: literal indices
descend (`at` throws when out of range), other indices merge through
`mergeAggregate`; either way the two signed bounds constraints are then
pushed. -/
def evalLValueGo (store : Store) :
    List Access → SymVal → List Term → Except String (SymVal × List Term)
  | [], res, pc => .ok (res, pc)
  | .index ai :: rest, res, pc =>
    match res with
    | .array elems => do
      let n := elems.length
      let (idxT, next) ←
        match ai with
        | .lit v => do
          let idxT : Term := .bvVal (.bv 32) v
          match (if 0 ≤ v then elems.get? v.toNat else none) with
          | some nx => pure (idxT, nx)
          | none => Except.error "arrayVal.at out of range"
        | .id lsid => do
          let sv ← storeAt store lsid.name
          let idxT := sv.termOf
          let merged ← mergeAggregate elems idxT
          pure (idxT, merged)
      let ws ← getSortT idxT
      let pc1 := pc ++
        [tmk .BV_SLE [mkBvZero ws, idxT], tmk .BV_SLT [idxT, .bvVal ws (n : Int)]]
      evalLValueGo store rest next pc1
    | _ => .error "Indexing non-array"
  | .field f :: rest, res, pc =>
    match res with
    | .strct fields =>
      match lookupFld fields f with
      | some next => evalLValueGo store rest next pc
      | none => .error "structVal.at: missing field"
    | _ => .error "Field access on non-struct"

/-- `SymbolicExecutor::evalLValue`: start from the root local's value
and walk the accesses. -/
def evalLValue (lv : LVal) (store : Store) (pc : List Term) :
    Except String (SymVal × List Term) := do
  let root ← storeAt store lv.base
  evalLValueGo store lv.accesses root pc

mutual
/-- `SymbolicExecutor::muxSymbolicValue`: scalarwise `ITE` through the
recursive structure; mismatched kinds, array lengths or struct keys
throw. -/
def muxSymbolicValue (cond : Term) : SymVal → SymVal → Except String SymVal
  | .undef, .undef => .ok .undef
  | .scalar t d, .scalar ft fd =>
    .ok (.scalar (tmk .ITE [cond, t, ft]) (tmk .ITE [cond, d, fd]))
  | .array ts, .array fs =>
    if ts.length ≠ fs.length then .error "Muxing arrays of different sizes"
    else do
      let vs ← muxList cond ts fs
      .ok (.array vs)
  | .strct tfs, .strct ffs => do
    let vs ← muxFlds cond tfs ffs
    .ok (.strct vs)
  | _, _ => .error "Muxing different kinds of SymbolicValues"

/-- Elementwise mux of two array payloads. -/
def muxList (cond : Term) : List SymVal → List SymVal → Except String (List SymVal)
  | [], _ => .ok []
  | t :: _, [] => do
    -- unreachable behind the length guard
    let v ← muxSymbolicValue cond t .undef
    .ok [v]
  | t :: ts, f :: fs => do
    let v ← muxSymbolicValue cond t f
    let vs ← muxList cond ts fs
    .ok (v :: vs)

/-- Fieldwise mux of two struct payloads (keys taken from the first,
looked up in the second). -/
def muxFlds (cond : Term) : List (String × SymVal) → List (String × SymVal) →
    Except String (List (String × SymVal))
  | [], _ => .ok []
  | (k, v) :: ts, ffs =>
    match lookupFld ffs k with
    | none => .error ("Muxing structs with mismatching keys: " ++ k)
    | some fv => do
      let nv ← muxSymbolicValue cond v fv
      let vs ← muxFlds cond ts ffs
      .ok ((k, nv) :: vs)
end

mutual
/-- `SymbolicExecutor::updateLValueRec`: at the end of the access list,
mux the written value over the current one under the path condition; at
a field, recurse into it; at a literal index, recurse into that element
(out-of-range literal writes leave the array unchanged, after the bounds
constraints were pushed); at a symbolic index, recurse into every
element under the path condition strengthened with `idx = k`.  Bounds
constraints are wrapped in `implies(pathCond, …)`.  The source guards
the recursion with an explicit depth limit of 100. -/
def updateLValueRec (cur : SymVal) (accesses : List Access) (val : SymVal)
    (pathCond : Term) (store : Store) (pc : List Term) (depth : Nat) :
    Except String (SymVal × List Term) :=
  if _h : 100 < depth then .error "Recursion depth exceeded in updateLValueRec"
  else
    match accesses with
    | [] => do
      let v ← muxSymbolicValue pathCond val cur
      .ok (v, pc)
    | .index ai :: nextAccesses =>
      match cur with
      | .array elems => do
        let idxT ←
          match ai with
          | .lit v => pure (Term.bvVal (.bv 32) v)
          | .id lsid => do
            let sv ← storeAt store lsid.name
            pure sv.termOf
        if elems.length = 0 then .error "Indexing empty array"
        else do
          let ws ← getSortT idxT
          let pc1 := pc ++
            [tmk .IMPLIES [pathCond, tmk .BV_SLE [mkBvZero ws, idxT]],
             tmk .IMPLIES [pathCond, tmk .BV_SLT [idxT, .bvVal ws (elems.length : Int)]]]
          match ai with
          | .lit v =>
            -- `uint64_t k = lit->value`: a negative literal wraps to a
            -- huge unsigned and fails the `k < size` test
            if 0 ≤ v ∧ v.toNat < elems.length then do
              match elems.get? v.toNat with
              | some ek => do
                let (ne, pc2) ←
                  updateLValueRec ek nextAccesses val pathCond store pc1 (depth + 1)
                .ok (.array (elems.set v.toNat ne), pc2)
              | none => .error "arrayVal index out of range"
            else .ok (.array elems, pc1)
          | .id _ => do
            let (nes, pc2) ←
              updateElems elems 0 idxT ws nextAccesses val pathCond store pc1 depth
            .ok (.array nes, pc2)
      | _ => .error "Indexing non-array in setLValue"
    | .field f :: nextAccesses =>
      match cur with
      | .strct fields =>
        match lookupFld fields f with
        | none => .error ("Field not found: " ++ f)
        | some fv => do
          let (nv, pc2) ← updateLValueRec fv nextAccesses val pathCond store pc (depth + 1)
          .ok (.strct (setFld fields f nv), pc2)
      | _ => .error "Field access on non-struct in setLValue"
  termination_by ((101 - depth) * 2 + 1, 0)
  decreasing_by
    all_goals simp_wf
    all_goals first
      | (apply Prod.Lex.left; omega)
      | (apply Prod.Lex.right; omega)

/-- The per-element loop of `updateLValueRec`'s symbolic-index case. -/
def updateElems (elems : List SymVal) (k : Nat) (idxT : Term) (ws : SmtSort)
    (nextAccesses : List Access) (val : SymVal) (pathCond : Term) (store : Store)
    (pc : List Term) (depth : Nat) : Except String (List SymVal × List Term) :=
  if _h : 100 < depth then .error "Recursion depth exceeded in updateLValueRec"
  else
    match elems with
    | [] => .ok ([], pc)
    | e :: es => do
      let kTerm : Term := .bvVal ws (k : Int)
      let matchT := tmk .EQUAL [idxT, kTerm]
      let cond := tmk .AND [pathCond, matchT]
      let (ne, pc1) ← updateLValueRec e nextAccesses val cond store pc (depth + 1)
      let (nes, pc2) ←
        updateElems es (k + 1) idxT ws nextAccesses val pathCond store pc1 depth
      .ok (ne :: nes, pc2)
  termination_by ((101 - depth) * 2, elems.length)
  decreasing_by
    all_goals simp_wf
    all_goals first
      | (apply Prod.Lex.left; omega)
      | (apply Prod.Lex.right; omega)
end

/-- `SymbolicExecutor::setLValue`: update the root's value under the
constant-true path condition (path feasibility is already encoded in the
path constraints). -/
def setLValue (lv : LVal) (val : SymVal) (store : Store) (pc : List Term) :
    Except String (Store × List Term) := do
  let root ← storeAt store lv.base
  let (newRoot, pc1) ← updateLValueRec root lv.accesses val .tru store pc 0
  .ok (setSV store lv.base newRoot, pc1)

/-- `SymbolicExecutor::evalCoef`: literals take the expected sort
(defaulting to 32-bit bitvector and (8,24) float), identifiers read
their store entry's term. -/
def evalCoef (c : Coef) (store : Store) (expectedSort : Option SmtSort) :
    Except String Term :=
  match c with
  | .intLit v => .ok (.bvVal (expectedSort.getD (.bv 32)) v)
  | .floatLit v => .ok (.fpVal (expectedSort.getD (.fp 8 24)) v)
  | .id lsid => do
    let sv ← storeAt store lsid.name
    .ok sv.termOf

/-- `SymbolicExecutor::evalSelectVal`. -/
def evalSelectVal (sv : SelectVal) (store : Store) (pc : List Term)
    (expectedSort : Option SmtSort) : Except String (Term × List Term) :=
  match sv with
  | .rv l => do
    let (v, pc1) ← evalLValue l store pc
    .ok (v.termOf, pc1)
  | .cf c => do
    let t ← evalCoef c store expectedSort
    .ok (t, pc)

/-- The cast-source dispatch of `evalAtom`'s `CastAtom` case. -/
def evalCastSrc (src : CastSrc) (store : Store) (pc : List Term) :
    Except String (Term × List Term) :=
  match src with
  | .ilit v => .ok (.bvVal (.bv 32) v, pc)
  | .flit v => .ok (.fpVal (.fp 8 24) v, pc)
  | .sym n => do
    let sv ← storeAt store n
    .ok (sv.termOf, pc)
  | .lval lv => do
    let (v, pc1) ← evalLValue lv store pc
    .ok (v.termOf, pc1)

mutual
/-- `SymbolicExecutor::evalAtom` (solver.cpp lines 572 to 715): builds
the result term for each atom variant, pushing the undefined-behaviour
side conditions (nonzero divisor, no signed overflow, no overshift,
division overflow) into the path constraints. -/
def evalAtom (a : Atom) (store : Store) (pc : List Term)
    (expectedSort : Option SmtSort) : Except String (Term × List Term) :=
  match a with
  | .opA op coef rval => do
    let c ← evalCoef coef store expectedSort
    let (rv, pc1) ← evalLValue rval store pc
    let r := rv.termOf
    let cs ← getSortT c
    if cs.isFp then
      match op with
      | .mul => .ok (tmk .FP_MUL [c, r], pc1)
      | .div => .ok (tmk .FP_DIV [c, r], pc1)
      | .mod => .ok (tmk .FP_REM [c, r], pc1)
      | _ => .ok (.null, pc1)
    else do
      let pc2 ←
        if op = AtomOp.div ∨ op = AtomOp.mod then do
          let rs ← getSortT r
          pure (pc1 ++ [tmk .DISTINCT [r, mkBvZero rs]])
        else pure pc1
      match op with
      | .mul =>
        let overflow := tmk .BV_SMUL_OVERFLOW [c, r]
        .ok (tmk .BV_MUL [c, r], pc2 ++ [tmk .NOT [overflow]])
      | .div => do
        let rs ← getSortT r
        let isMin := tmk .EQUAL [c, mkBvMinSigned cs]
        let isMinusOne := tmk .EQUAL [r, .bvVal rs (-1)]
        let divOverflow := tmk .AND [isMin, isMinusOne]
        .ok (tmk .BV_SDIV [c, r], pc2 ++ [tmk .NOT [divOverflow]])
      | .mod => do
        let rs ← getSortT r
        let isMin := tmk .EQUAL [c, mkBvMinSigned cs]
        let isMinusOne := tmk .EQUAL [r, .bvVal rs (-1)]
        let modOverflow := tmk .AND [isMin, isMinusOne]
        .ok (tmk .BV_SREM [c, r], pc2 ++ [tmk .NOT [modOverflow]])
      | .and => .ok (tmk .BV_AND [c, r], pc2)
      | .or => .ok (tmk .BV_OR [c, r], pc2)
      | .xor => .ok (tmk .BV_XOR [c, r], pc2)
      | .shl => do
        let rs ← getSortT r
        let widthTerm : Term := .bvVal rs (cs.bvWidth : Int)
        .ok (tmk .BV_SHL [c, r], pc2 ++ [tmk .BV_ULT [r, widthTerm]])
      | .shr => do
        let rs ← getSortT r
        let widthTerm : Term := .bvVal rs (cs.bvWidth : Int)
        .ok (tmk .BV_ASHR [c, r], pc2 ++ [tmk .BV_ULT [r, widthTerm]])
      | .lshr => do
        let rs ← getSortT r
        let widthTerm : Term := .bvVal rs (cs.bvWidth : Int)
        .ok (tmk .BV_SHR [c, r], pc2 ++ [tmk .BV_ULT [r, widthTerm]])
  | .unaryA rval => do
    let (rv, pc1) ← evalLValue rval store pc
    .ok (tmk .BV_NOT [rv.termOf], pc1)
  | .selectA cond vtrue vfalse => do
    let (condT, pc1) ← evalCond cond store pc
    let (vt, pc2) ← evalSelectVal vtrue store pc1 expectedSort
    let (vf, pc3) ← evalSelectVal vfalse store pc2 expectedSort
    .ok (tmk .ITE [condT, vt, vf], pc3)
  | .coefA coef => do
    let c ← evalCoef coef store expectedSort
    .ok (c, pc)
  | .rvalA rval => do
    let (rv, pc1) ← evalLValue rval store pc
    .ok (rv.termOf, pc1)
  | .castA src dstType => do
    let (srcT, pc1) ← evalCastSrc src store pc
    let dstSort ← getSort dstType
    let srcSort ← getSortT srcT
    if srcSort.isFp ∧ ¬dstSort.isFp then
      .ok (Term.mk .FP_TO_SBV [srcT] [dstSort.bvWidth], pc1)
    else if ¬srcSort.isFp ∧ dstSort.isFp then
      .ok (Term.mk .FP_TO_FP_FROM_SBV [srcT] [dstSort.fpDims.1, dstSort.fpDims.2], pc1)
    else if srcSort.isFp ∧ dstSort.isFp then
      .ok (Term.mk .FP_TO_FP_FROM_FP [srcT] [dstSort.fpDims.1, dstSort.fpDims.2], pc1)
    else
      let srcW := srcSort.bvWidth
      let dstW := dstSort.bvWidth
      if srcW = dstW then .ok (srcT, pc1)
      else if srcW < dstW then
        .ok (Term.mk .BV_SIGN_EXTEND [srcT] [dstW - srcW], pc1)
      else .ok (Term.mk .BV_EXTRACT [srcT] [dstW - 1, 0], pc1)

/-- The tail loop of `SymbolicExecutor::evalExpr`: a strictly
left-to-right fold with FP or BV add/sub, pushing a no-signed-overflow
constraint for every BV step. -/
def evalExprTail (res : Term) (rest : List (AddOp × Atom)) (store : Store)
    (pc : List Term) (expectedSort : Option SmtSort) : Except String (Term × List Term) :=
  match rest with
  | [] => .ok (res, pc)
  | (op, a) :: more => do
    let (right, pc1) ← evalAtom a store pc expectedSort
    let resSort ← getSortT res
    match op with
    | .plus =>
      if resSort.isFp then
        evalExprTail (tmk .FP_ADD [res, right]) more store pc1 expectedSort
      else
        let overflow := tmk .BV_SADD_OVERFLOW [res, right]
        evalExprTail (tmk .BV_ADD [res, right]) more store
          (pc1 ++ [tmk .NOT [overflow]]) expectedSort
    | .minus =>
      if resSort.isFp then
        evalExprTail (tmk .FP_SUB [res, right]) more store pc1 expectedSort
      else
        let overflow := tmk .BV_SSUB_OVERFLOW [res, right]
        evalExprTail (tmk .BV_SUB [res, right]) more store
          (pc1 ++ [tmk .NOT [overflow]]) expectedSort

/-- `SymbolicExecutor::evalExpr`. -/
def evalExpr (e : Expr) (store : Store) (pc : List Term)
    (expectedSort : Option SmtSort) : Except String (Term × List Term) :=
  match e with
  | .mk first rest => do
    let (res, pc1) ← evalAtom first store pc expectedSort
    evalExprTail res rest store pc1 expectedSort

/-- `SymbolicExecutor::evalCond`: evaluate both sides (the right side
under the left side's sort), then map the relation to FP ordered
comparisons (with `≠` the negation of `fp_equal`) or signed BV
comparisons. -/
def evalCond (c : Cond) (store : Store) (pc : List Term) :
    Except String (Term × List Term) :=
  match c with
  | .mk lhsE op rhsE => do
    let (lhs, pc1) ← evalExpr lhsE store pc none
    let lhsSort ← getSortT lhs
    let (rhs, pc2) ← evalExpr rhsE store pc1 (some lhsSort)
    if lhsSort.isFp then
      match op with
      | .eq => .ok (tmk .FP_EQUAL [lhs, rhs], pc2)
      | .ne => .ok (tmk .NOT [tmk .FP_EQUAL [lhs, rhs]], pc2)
      | .lt => .ok (tmk .FP_LT [lhs, rhs], pc2)
      | .le => .ok (tmk .FP_LEQ [lhs, rhs], pc2)
      | .gt => .ok (tmk .FP_GT [lhs, rhs], pc2)
      | .ge => .ok (tmk .FP_GEQ [lhs, rhs], pc2)
    else
      match op with
      | .eq => .ok (tmk .EQUAL [lhs, rhs], pc2)
      | .ne => .ok (tmk .DISTINCT [lhs, rhs], pc2)
      | .lt => .ok (tmk .BV_SLT [lhs, rhs], pc2)
      | .le => .ok (tmk .BV_SLE [lhs, rhs], pc2)
      | .gt => .ok (tmk .BV_SGT [lhs, rhs], pc2)
      | .ge => .ok (tmk .BV_SGE [lhs, rhs], pc2)
end

/-- The symbolic value written by an `Assign` (solver.cpp line 268):
a scalar carrying the evaluated right-hand side with `is_defined` the
constant true term, whatever the right-hand side was. -/
def assignValue (rhs : Term) : SymVal := .scalar rhs .tru

/-- One instruction of the path walk (the visitor at solver.cpp lines
256 to 278): assignments evaluate the lvalue (pushing its bounds
constraints), evaluate the right-hand side under the lvalue's sort, and
write back through `setLValue`; assumes push onto the path constraints,
requires onto the requirements. -/
def execInstr (ins : Instr) (store : Store) (pc req : List Term) :
    Except String (Store × List Term × List Term) :=
  match ins with
  | .assignI lhs rhs => do
    let (lhsVal, pc1) ← evalLValue lhs store pc
    let expected ←
      match lhsVal with
      | .scalar t _ => do
        let s ← getSortT t
        pure (some s)
      | _ => pure none
    let (rhsT, pc2) ← evalExpr rhs store pc1 expected
    let (store1, pc3) ← setLValue lhs (assignValue rhsT) store pc2
    .ok (store1, pc3, req)
  | .assumeI cond => do
    let (c, pc1) ← evalCond cond store pc
    .ok (store, pc1 ++ [c], req)
  | .requireI cond _ => do
    let (c, pc1) ← evalCond cond store pc
    .ok (store, pc1, req ++ [c])

/-- The instruction loop of one path block. -/
def execInstrs (instrs : List Instr) (store : Store) (pc req : List Term) :
    Except String (Store × List Term × List Term) :=
  match instrs with
  | [] => .ok (store, pc, req)
  | ins :: rest => do
    let (store1, pc1, req1) ← execInstr ins store pc req
    execInstrs rest store1 pc1 req1

/-- The path walk of `SymbolicExecutor::solve` (step 4): resolve each
label, execute the block, and — when the path continues — match the
block's terminator against the next label, pushing the branch condition
(or its negation) for conditional branches.  Unknown labels, non-branch
terminators before the end, and label mismatches throw.  A conditional
branch with an absent condition dereferences a null optional in the
source; it is an error here. -/
def walkPath (f : FunDecl) (cfg : Cfg) :
    List String → Store → List Term → List Term →
    Except String (Store × List Term × List Term)
  | [], store, pc, req => .ok (store, pc, req)
  | label :: rest, store, pc, req =>
    match cfg.indexOf label with
    | none => .error ("Invalid block label in path: " ++ label)
    | some bi =>
      match f.blocks.get? bi with
      | none => .error "block index out of range"
      | some block => do
        let (store1, pc1, req1) ← execInstrs block.instrs store pc req
        match rest with
        | [] => .ok (store1, pc1, req1)
        | nextLabel :: _ =>
          match block.term with
          | .br cond dest thenL elseL isCond =>
            if isCond then do
              let (condT, pc2) ←
                match cond with
                | some cc => evalCond cc store1 pc1
                | none => Except.error "conditional branch without condition"
              if thenL = nextLabel then walkPath f cfg rest store1 (pc2 ++ [condT]) req1
              else if elseL = nextLabel then
                walkPath f cfg rest store1 (pc2 ++ [tmk .NOT [condT]]) req1
              else .error ("Path edge not in CFG: " ++ label ++ " -> " ++ nextLabel)
            else
              if dest = nextLabel then walkPath f cfg rest store1 pc1 req1
              else .error ("Path edge not in CFG: " ++ label ++ " -> " ++ nextLabel)
          | _ =>
            .error ("Block " ++ label ++ " ends with non-branch terminator but path has more blocks")

/-- Lookup in the `fixedSyms` map. -/
def lookupFixed : List (String × Int) → String → Option Int
  | [], _ => none
  | (k, v) :: rest, n => if k = n then some v else lookupFixed rest n

/-- Step 1 of `solve`: declare each symbol, assert its domain (interval
as two signed bounds, set as a left-nested disjunction of equalities)
and its fixed value when one was supplied. -/
def setupSyms (structs : StructMap) :
    List SymDeclD → List (String × Int) → Store → List Term →
    Except String (Store × List Term)
  | [], _, store, pc => .ok (store, pc)
  | s :: rest, fixedSyms, store, pc => do
    let sv ← createSymbolicValue structs 1000 s.type s.name
    let store1 := setSV store s.name sv
    let pc1 ←
      match s.domain with
      | none => pure pc
      | some (.interval lo hi) => do
        let srt ← getSort s.type
        pure (pc ++
          [tmk .BV_SLE [.bvVal srt lo, sv.termOf], tmk .BV_SLE [sv.termOf, .bvVal srt hi]])
      | some (.set values) =>
        match values with
        | [] => pure pc
        | v0 :: vs => do
          let srt ← getSort s.type
          let orAll := vs.foldl
            (fun acc v => tmk .OR [acc, tmk .EQUAL [sv.termOf, .bvVal srt v]])
            (tmk .EQUAL [sv.termOf, .bvVal srt v0])
          pure (pc ++ [orAll])
    let pc2 ←
      match lookupFixed fixedSyms s.name with
      | none => pure pc1
      | some v => do
        let srt ← getSort s.type
        pure (pc1 ++ [tmk .EQUAL [sv.termOf, .bvVal srt v]])
    setupSyms structs rest fixedSyms store1 pc2

/-- Step 2 of `solve`: declare the parameters. -/
def setupParams (structs : StructMap) :
    List ParamDeclD → Store → Except String Store
  | [], store => .ok store
  | p :: rest, store => do
    let sv ← createSymbolicValue structs 1000 p.type p.name
    setupParams structs rest (setSV store p.name sv)

/-- Step 2 of `solve`, continued: initialize the lets from their
initializers (undef without one). -/
def setupLets (structs : StructMap) :
    List LetDeclD → Store → Except String Store
  | [], store => .ok store
  | l :: rest, store => do
    let sv ←
      match l.init with
      | some iv => evalInit structs store 1000 iv l.type
      | none => makeUndef structs 1000 l.type
    setupLets structs rest (setSV store l.name sv)

/-- Steps 1 to 4 of `SymbolicExecutor::solve`: everything before the
final assert/check-sat/model stage.  Returns the accumulated path
constraints, requirements and store. -/
def solvePrep (prog : Program) (funcName : String) (path : List String)
    (fixedSyms : List (String × Int)) : Except String (List Term × List Term × Store) := do
  let entry ←
    match prog.funs.find? (fun f => f.name = funcName) with
    | some f => pure f
    | none => Except.error ("Function not found: " ++ funcName)
  let structs := structsOf prog
  let (store1, pc1) ← setupSyms structs entry.syms fixedSyms [] []
  let store2 ← setupParams structs entry.params store1
  let store3 ← setupLets structs entry.lets store2
  let (cfg, cfgDiags) := CfgBuild entry
  if cfgDiags ≠ [] then .error "CFG build failed"
  else do
    let (storeF, pcF, reqF) ← walkPath entry cfg path store3 pc1 []
    .ok (pcF, reqF, storeF)

/-- `SymbolicExecutor::solve`: the preparatory stages, then the solving
stage (step 5: assert every path constraint and requirement, one
`check_sat`, model extraction), which is the only stage that talks to
the SMT backend and is abstracted as the `finish` argument. -/
def solve {R : Type} (finish : List Term → List Term → Store → R) (prog : Program)
    (funcName : String) (path : List String) (fixedSyms : List (String × Int)) :
    Except String R :=
  (solvePrep prog funcName path fixedSyms).map (fun r => finish r.1 r.2.1 r.2.2)

/-- Spec-side well-formedness of a path against a function's CFG: every
label resolves, and every consecutive pair follows a branch terminator
whose then/else (or unconditional destination) label matches.  The three
malformed-path conditions are exactly its failure cases. -/
def pathWellFormedB (f : FunDecl) (cfg : Cfg) : List String → Bool
  | [] => true
  | [l] => (cfg.indexOf l).isSome
  | l :: next :: rest =>
    match cfg.indexOf l with
    | none => false
    | some bi =>
      match f.blocks.get? bi with
      | none => false
      | some blk =>
        (match blk.term with
         | .br _ dest thenL elseL isCond =>
           if isCond then thenL = next || elseL = next else dest = next
         | _ => false) &&
          pathWellFormedB f cfg (next :: rest)

end SymbolicExecutor

/-! ## Spec-side instruments and demonstration inputs -/

/-- The CFG builder's edge contract: every predecessor entry is matched
by a successor entry with the same multiplicity. -/
def EdgeInvariant (g : Cfg) : Prop :=
  ∀ i s : Nat, (g.pred s).count i = (g.succ i).count s

/-- A 32-bit integer type node at an arbitrary address. -/
def i32At (addr : Nat) : TyPtr := .ref addr (.int .i32 none)

/-- A trivially true condition (`0 == 0`) for demonstration branches. -/
def zeroEqZero : Cond :=
  .mk (.mk (.coefA (.intLit 0)) []) .eq (.mk (.coefA (.intLit 0)) [])

/-- C4 demo: a block whose only reads of `%x` sit in a select arm and in
a cast source (`%y = %c == 0 ? %x : 0; %z = %x as i32`). -/
def c4blockA : Block where
  label := "^entry"
  instrs :=
    [.assignI ⟨"%y", []⟩
      (.mk (.selectA (.mk (.mk (.coefA (.id (.loc "%c"))) []) .eq (.mk (.coefA (.intLit 0)) []))
        (.rv ⟨"%x", []⟩) (.cf (.intLit 0))) []),
     .assignI ⟨"%z", []⟩ (.mk (.castA (.lval ⟨"%x", []⟩) (i32At 9)) [])]
  term := .unreachable

/-- C4 demo: the same read of `%x` through a plain rvalue atom. -/
def c4blockB : Block where
  label := "^entry"
  instrs := [.assignI ⟨"%y", []⟩ (.mk (.rvalA ⟨"%x", []⟩) [])]
  term := .unreachable

/-- C4 demo: in-state with `%x` possibly uninitialized. -/
def c4state : DefiniteInitAnalysis.InitSet :=
  [("%x", false), ("%c", true), ("%y", true), ("%z", true)]

/-- C5 demo: a two-block function with one parameter. -/
def c5fun : FunDecl where
  name := "@g"
  params := [⟨"%p", i32At 1⟩]
  retType := i32At 1
  syms := []
  lets := []
  blocks :=
    [⟨"^entry", [], .br none "^b" "" "" false⟩,
     ⟨"^b", [], .ret none⟩]

/-- C5 demo: its CFG. -/
def c5cfg : Cfg := (CfgBuild c5fun).1

/-- C3 demo: scope with `%x : f32`, `%y : f64` and `%i : i32`. -/
def c3vars : TypeChecker.Vars := fun n =>
  if n = "%x" then some ⟨.ref 1 (.float .f32), false, false⟩
  else if n = "%y" then some ⟨.ref 2 (.float .f64), false, false⟩
  else if n = "%i" then some ⟨i32At 3, false, false⟩
  else none

/-- C3 demo: no symbols in scope. -/
def c3syms : TypeChecker.Syms := fun _ => none

/-- C3 demo: no structs in scope. -/
def c3structs : TypeChecker.Structs := fun _ => none

/-- C3 demo: the condition `%x == %y` comparing an f32 against an f64. -/
def c3condFF : Cond :=
  .mk (.mk (.coefA (.id (.loc "%x"))) []) .eq (.mk (.coefA (.id (.loc "%y"))) [])

/-- C3 demo: the condition `%i == %x` comparing an i32 against an f32. -/
def c3condIF : Cond :=
  .mk (.mk (.coefA (.id (.loc "%i"))) []) .eq (.mk (.coefA (.id (.loc "%x"))) [])

/-- C6 demo: a conditional branch whose then and else labels are both
`^a`. -/
def c6fun : FunDecl where
  name := "@g"
  params := []
  retType := i32At 1
  syms := []
  lets := []
  blocks :=
    [⟨"^entry", [], .br (some zeroEqZero) "" "^a" "^a" true⟩,
     ⟨"^a", [], .ret none⟩]

/-- C2 demo: a store with a 32-bit scalar local `%r`. -/
def c2store : SymbolicExecutor.Store :=
  [("%r", .scalar (.const (.bv 32) "%r") .tru)]

/-- C10 demo: a store where `%x` holds an undef-derived scalar
(`is_defined` false). -/
def c10store : SymbolicExecutor.Store :=
  [("%x", .scalar (.const (.bv 32) "undef") .fls)]

/-- C10 demo: the right-hand side `%x`, reading the undef local. -/
def c10rhs : Expr := .mk (.rvalA ⟨"%x", []⟩) []

/-- C1 demo: a store with a two-by-two array `%a2` of 32-bit scalars and
a 32-bit scalar index `%i`. -/
def c1store : SymbolicExecutor.Store :=
  [("%a2", .array
      [.array [.scalar (.const (.bv 32) "a") .tru, .scalar (.const (.bv 32) "b") .tru],
       .array [.scalar (.const (.bv 32) "c") .tru, .scalar (.const (.bv 32) "d") .tru]]),
   ("%i", .scalar (.const (.bv 32) "%i") .tru)]

/-- C1 demo: a store with a three-element array `%a` of 32-bit scalars
and a 32-bit scalar index `%i`. -/
def c1storeFlat : SymbolicExecutor.Store :=
  [("%a", .array
      [.scalar (.const (.bv 32) "a0") .tru,
       .scalar (.const (.bv 32) "a1") .tru,
       .scalar (.const (.bv 32) "a2") .tru]),
   ("%i", .scalar (.const (.bv 32) "%i") .tru)]

/-- C8 demo: a single-block function ending in a return. -/
def c8fun : FunDecl where
  name := "@g"
  params := []
  retType := i32At 1
  syms := []
  lets := []
  blocks := [⟨"^entry", [], .ret (some (.mk (.coefA (.intLit 0)) []))⟩]

/-- C8 demo: the program holding it. -/
def c8prog : Program := ⟨[], [c8fun]⟩

/-! ## Theorems -/

section Helpers

open DefiniteInitAnalysis

/-- Lookup in a constant-valued block map built over a label list. -/
theorem lookupBM_map_const (blocks : List String) (v : InitSet) (b : String)
    (hb : b ∈ blocks) :
    lookupBM (blocks.map (fun x => (x, v))) b = some v := by
  induction blocks with
  | nil => cases hb
  | cons x xs ih =>
    simp only [List.map, lookupBM]
    by_cases hx : x = b
    · simp [hx]
    · have : b ∈ xs := by
        rcases List.mem_cons.mp hb with h | h
        · exact absurd h.symm hx
        · exact h
      simp [hx, ih this]

/-- Lookup after a block-map update, at the updated key. -/
theorem lookupBM_setBM_self (m : BlockMap) (k : String) (v : InitSet) :
    lookupBM (setBM m k v) k = some v := by
  induction m with
  | nil => simp [setBM, lookupBM]
  | cons kv rest ih =>
    obtain ⟨k2, v2⟩ := kv
    simp only [setBM]
    by_cases hk : k2 = k
    · simp [lookupBM, hk]
    · simp [lookupBM, hk, ih]

/-- Lookup after a block-map update, at a different key. -/
theorem lookupBM_setBM_other (m : BlockMap) (k b : String) (v : InitSet)
    (hbk : b ≠ k) :
    lookupBM (setBM m k v) b = lookupBM m b := by
  have hkb : ¬k = b := fun h => hbk h.symm
  induction m with
  | nil => simp [setBM, lookupBM, hkb]
  | cons kv rest ih =>
    obtain ⟨k2, v2⟩ := kv
    simp only [setBM]
    by_cases hk : k2 = k
    · subst hk
      simp [lookupBM, hkb, ih]
    · by_cases hb2 : k2 = b
      · simp [lookupBM, hb2, hbk, ih]
      · simp [lookupBM, hk, hb2, ih]

end Helpers

/-- C9: on two structurally identical float type nodes at distinct
addresses, `areTypesEqual` returns false — the function has no
`FloatType` case and falls through to its final `return false`, so it is
not reflexive on floats and two equal-kind float types do not compare
equal, contradicting the specified structural equality. -/
theorem C9_float_equality_returns_false :
    areTypesEqual (.ref 1 (.float .f32)) (.ref 2 (.float .f32)) = false ∧
    areTypesEqual (.ref 3 (.float .f64)) (.ref 4 (.float .f64)) = false ∧
    areTypesEqual (.ref 1 (.float .f32)) (.ref 1 (.float .f32)) = true := by
  refine ⟨rfl, rfl, rfl⟩

/-- C7: the literal range check accepts an integer literal against an
expected width `N` exactly when the literal lies between `-2^(N-1)` and
`2^N - 1`, for any literal representable in the source's 64-bit signed
literal type; outside the window it reports an error. -/
theorem C7_literal_range (val : Int) (bits : Nat)
    (h1 : 1 ≤ bits) (h2 : -(2 ^ 63) ≤ val) (h3 : val < 2 ^ 63) :
    (checkLiteralRange val bits = [] ↔
      -((2 : Int) ^ (bits - 1)) ≤ val ∧ val ≤ 2 ^ bits - 1) := by
  unfold checkLiteralRange
  by_cases hb : bits ≥ 64
  · simp only [hb, if_true]
    constructor
    · intro _
      constructor
      · have h63 : (2 : Int) ^ 63 ≤ 2 ^ (bits - 1) := by
          apply pow_le_pow_right (by norm_num)
          omega
        omega
      · have h64 : (2 : Int) ^ 63 ≤ 2 ^ bits - 1 := by
          have : (2 : Int) ^ 64 ≤ 2 ^ bits := by
            apply pow_le_pow_right (by norm_num)
            omega
          have : (2 : Int) ^ 64 = 2 ^ 63 * 2 := by norm_num
          omega
        omega
    · intro _
      trivial
  · simp only [hb, if_false]
    by_cases hr : val < -((2 : Int) ^ (bits - 1)) ∨ val > (2 : Int) ^ bits - 1
    · simp only [hr, if_true]
      constructor
      · intro h
        exact absurd h (by simp)
      · intro h
        omega
    · simp only [hr, if_false]
      constructor
      · intro _
        omega
      · intro _
        trivial

/-- C7 witness: 300 against width 8 is out of range and rejected. -/
theorem C7_witness :
    (1 ≤ 8 ∧ -((2 : Int) ^ 63) ≤ 300 ∧ (300 : Int) < 2 ^ 63) ∧
    checkLiteralRange 300 8 ≠ [] := by
  refine ⟨⟨by norm_num, by norm_num, by norm_num⟩, fun hc => ?_⟩
  have h := (C7_literal_range 300 8 (by norm_num) (by norm_num) (by norm_num)).mp hc
  have : ¬((300 : Int) ≤ 2 ^ 8 - 1) := by norm_num
  exact this h.2

/-- C4: the definite-initialization transfer emits no diagnostic for a
block whose only reads of the possibly-uninitialized `%x` occur in a
select arm and in a cast source (the source visitor has no case for
those positions), while the same read through a plain rvalue atom is
flagged — so reads in select arms and cast sources are silently
missed. -/
theorem C4_select_arm_and_cast_not_checked :
    DefiniteInitAnalysis.lookupIS c4state "%x" = some false ∧
    (DefiniteInitAnalysis.transferBlock c4blockA c4state).2 = [] ∧
    (DefiniteInitAnalysis.transferBlock c4blockB c4state).2 =
      ["Read of possibly uninitialized local: %x"] := by
  refine ⟨rfl, rfl, rfl⟩

/-- C5 counterexample: in the two-block demo function, the initial
out-state of the entry block (and every other block) is the all-false
map, not the all-true map the claim states. -/
theorem C5_counterexample :
    DefiniteInitAnalysis.lookupBM (DefiniteInitAnalysis.initialInOut c5fun c5cfg).2 "^entry" =
      some [("%p", false)] ∧
    DefiniteInitAnalysis.makeAllTrue c5fun = [("%p", true)] ∧
    DefiniteInitAnalysis.lookupBM (DefiniteInitAnalysis.initialInOut c5fun c5cfg).2 "^entry" ≠
      some (DefiniteInitAnalysis.makeAllTrue c5fun) := by
  refine ⟨by decide, by decide, by decide⟩

/-- C5 (amended): the iteration is initialized with `in[*] = out[*]`
equal to the all-false map over the tracked names, and only the entry
block's in-state is then replaced by the entry state (parameters true,
lets true iff they have a non-Undef initializer). -/
theorem C5_amended (f : FunDecl) (cfg : Cfg) (b : String) (hb : b ∈ cfg.blocks) :
    DefiniteInitAnalysis.lookupBM (DefiniteInitAnalysis.initialInOut f cfg).2 b =
      some (DefiniteInitAnalysis.makeAllFalse f) ∧
    (b ≠ (cfg.blocks.get? cfg.entry).getD "" →
      DefiniteInitAnalysis.lookupBM (DefiniteInitAnalysis.initialInOut f cfg).1 b =
        some (DefiniteInitAnalysis.makeAllFalse f)) ∧
    DefiniteInitAnalysis.lookupBM (DefiniteInitAnalysis.initialInOut f cfg).1
        ((cfg.blocks.get? cfg.entry).getD "") =
      some (DefiniteInitAnalysis.entryStart f) := by
  unfold DefiniteInitAnalysis.initialInOut
  refine ⟨?_, ?_, ?_⟩
  · exact lookupBM_map_const _ _ _ hb
  · intro hne
    rw [lookupBM_setBM_other _ _ _ _ hne]
    exact lookupBM_map_const _ _ _ hb
  · exact lookupBM_setBM_self _ _ _

/-- C5 witness: the amended statement evaluated on the demo function. -/
theorem C5_witness :
    ("^b" ∈ c5cfg.blocks) ∧
    DefiniteInitAnalysis.lookupBM (DefiniteInitAnalysis.initialInOut c5fun c5cfg).2 "^b" =
      some (DefiniteInitAnalysis.makeAllFalse c5fun) :=
  ⟨by decide, (C5_amended c5fun c5cfg "^b" (by decide)).1⟩

/-- C3 counterexample: `checkCond` emits no diagnostic for an f32
compared against an f64, nor for an i32 compared against an f32 — both
cases the claim says must be errors. -/
theorem C3_checkCond_counterexample :
    TypeChecker.checkCond c3condFF c3vars c3syms c3structs = [] ∧
    TypeChecker.checkCond c3condIF c3vars c3syms c3structs = [] := by
  refine ⟨rfl, rfl⟩

/-- C3 (amended): for every condition, `checkCond` reports, besides
whatever the two side expressions themselves raise, a condition-level
error exactly when both sides type as integers with unequal bitwidths;
float-width mismatches and integer/float mixes across the relation are
not flagged. -/
theorem C3_checkCond_amended (c : Cond) (vars : TypeChecker.Vars)
    (syms : TypeChecker.Syms) (structs : TypeChecker.Structs) :
    ∃ extra : List String,
      TypeChecker.checkCond c vars syms structs =
        (TypeChecker.typeOfExpr c.lhs vars syms structs none).2 ++
          (TypeChecker.typeOfExpr c.rhs vars syms structs
            (if (TypeChecker.typeOfExpr c.lhs vars syms structs none).1.isBV then
              some (TypeChecker.typeOfExpr c.lhs vars syms structs none).1.bvBits
            else none)).2 ++ extra ∧
      (extra ≠ [] ↔
        ((TypeChecker.typeOfExpr c.lhs vars syms structs none).1.isBV = true ∧
         (TypeChecker.typeOfExpr c.rhs vars syms structs
            (if (TypeChecker.typeOfExpr c.lhs vars syms structs none).1.isBV then
              some (TypeChecker.typeOfExpr c.lhs vars syms structs none).1.bvBits
            else none)).1.isBV = true ∧
         (TypeChecker.typeOfExpr c.lhs vars syms structs none).1.bvBits ≠
           (TypeChecker.typeOfExpr c.rhs vars syms structs
              (if (TypeChecker.typeOfExpr c.lhs vars syms structs none).1.isBV then
                some (TypeChecker.typeOfExpr c.lhs vars syms structs none).1.bvBits
              else none)).1.bvBits)) := by
  obtain ⟨lhsE, op, rhsE⟩ := c
  rcases he1 : TypeChecker.typeOfExpr lhsE vars syms structs none with ⟨t1, ds1⟩
  rcases he2 : TypeChecker.typeOfExpr rhsE vars syms structs
      (if t1.isBV then some t1.bvBits else none) with ⟨t2, ds2⟩
  unfold TypeChecker.checkCond
  simp only [Cond.lhs, Cond.rhs, he1, he2]
  by_cases h : t1.isBV = true ∧ t2.isBV = true ∧ t1.bvBits ≠ t2.bvBits
  · refine ⟨["Bitwidth mismatch in condition"], ?_, ?_⟩
    · rw [if_pos h]
    · simp [h]
  · refine ⟨[], ?_, ?_⟩
    · rw [if_neg h]
    · simp [h]

/-- Counting in a singleton list of naturals. -/
theorem count_singleton_ite (a b : Nat) : ([a].count b) = if a = b then 1 else 0 := by
  by_cases h : a = b <;> simp [h, List.count_cons, List.count_nil]

/-- `add_edge` preserves the edge contract: it appends to `succ[src]`
and `pred[dst]` together (or, on an unknown label, to neither). -/
theorem addEdge_inv (g : Cfg) (ds : List String) (src : Nat) (L : String)
    (h : EdgeInvariant g) : EdgeInvariant (addEdge g ds src L).1 := by
  unfold addEdge
  cases hL : g.indexOf L with
  | none => exact h
  | some dst =>
    intro i s
    simp only [updAdj]
    by_cases hs : s = dst
    · by_cases hi : i = src
      · subst hs; subst hi
        simp only [if_pos rfl, List.count_append, count_singleton_ite]
        have := h i s
        simp [this]
      · subst hs
        rw [if_pos rfl, if_neg hi, List.count_append, count_singleton_ite,
          if_neg (fun hq => hi hq.symm)]
        have := h i s
        omega
    · by_cases hi : i = src
      · subst hi
        rw [if_neg hs, if_pos rfl, List.count_append, count_singleton_ite,
          if_neg (fun hq => hs hq.symm)]
        have := h i s
        omega
      · rw [if_neg hs, if_neg hi]
        exact h i s

/-- The terminator-edge loop preserves the edge contract. -/
theorem edgeBlocks_inv (bs : List Block) (i : Nat) (g : Cfg) (ds : List String)
    (h : EdgeInvariant g) : EdgeInvariant (edgeBlocks bs i g ds).1 := by
  induction bs generalizing i g ds with
  | nil => exact h
  | cons b rest ih =>
    simp only [edgeBlocks]
    cases hterm : b.term with
    | br cond dest thenL elseL isCond =>
      cases isCond with
      | true =>
        cases cond with
        | none => exact ih (i + 1) g ds h
        | some c =>
          rcases hA : addEdge g ds i thenL with ⟨g1, ds1⟩
          rcases hB : addEdge g1 ds1 i elseL with ⟨g2, ds2⟩
          have h1 : EdgeInvariant g1 := by
            have := addEdge_inv g ds i thenL h
            rw [hA] at this
            exact this
          have h2 : EdgeInvariant g2 := by
            have := addEdge_inv g1 ds1 i elseL h1
            rw [hB] at this
            exact this
          simp only [hA, hB]
          exact ih (i + 1) g2 ds2 h2
      | false =>
        rcases hA : addEdge g ds i dest with ⟨g1, ds1⟩
        have h1 : EdgeInvariant g1 := by
          have := addEdge_inv g ds i dest h
          rw [hA] at this
          exact this
        simp only [hA]
        exact ih (i + 1) g1 ds1 h1
    | ret value => exact ih (i + 1) g ds h
    | unreachable => exact ih (i + 1) g ds h

/-- C6: in the built CFG of any function, `pred[s]` contains `i` with
exactly the multiplicity with which `succ[i]` contains `s`; and a
conditional branch whose then and else labels name the same block
contributes two parallel edges (demo function: successor list `[1, 1]`
and predecessor list `[0, 0]`). -/
theorem C6_cfg_edge_multiset :
    (∀ (f : FunDecl) (i s : Nat),
      (((CfgBuild f).1.pred s).count i) = (((CfgBuild f).1.succ i).count s)) ∧
    (CfgBuild c6fun).1.succ 0 = [1, 1] ∧ (CfgBuild c6fun).1.pred 1 = [0, 0] := by
  refine ⟨?_, by decide, by decide⟩
  intro f i s
  have hinv : EdgeInvariant (CfgBuild f).1 := by
    unfold CfgBuild
    by_cases he : f.blocks.isEmpty
    · simp only [he, if_true]
      intro i s
      simp [emptyCfg]
    · simp only [he, if_false]
      rcases hI : indexBlocks f.blocks 0 (fun _ => none) [] [] with ⟨m, keys, ds0⟩
      simp only [hI]
      apply edgeBlocks_inv
      intro i s
      simp
  exact hinv i s

/-- Store lookup after an update, at the updated name. -/
theorem lookupSV_setSV_self (store : SymbolicExecutor.Store) (n : String)
    (v : SymbolicExecutor.SymVal) :
    SymbolicExecutor.lookupSV (SymbolicExecutor.setSV store n v) n = some v := by
  induction store with
  | nil => simp [SymbolicExecutor.setSV, SymbolicExecutor.lookupSV]
  | cons kv rest ih =>
    obtain ⟨k2, v2⟩ := kv
    simp only [SymbolicExecutor.setSV]
    by_cases hk : k2 = n
    · simp [SymbolicExecutor.lookupSV, hk]
    · simp [SymbolicExecutor.lookupSV, hk, ih]

/-- C2: for an integer division or remainder atom, `evalAtom` pushes the
nonzero-divisor constraint `r ≠ 0` followed by the negated overflow
condition `¬(c = INT_MIN ∧ r = -1)` into the path constraints, and the
result term is `bv_sdiv(c, r)` for `/` and `bv_srem(c, r)` for `%`. -/
theorem C2_div_mod_ub (coef : Coef) (rval : LVal)
    (store : SymbolicExecutor.Store) (pc : List Term)
    (expectedSort : Option SmtSort) (c : Term) (rv : SymbolicExecutor.SymVal)
    (pc1 : List Term) (cw rw : Nat)
    (hc : SymbolicExecutor.evalCoef coef store expectedSort = .ok c)
    (hr : SymbolicExecutor.evalLValue rval store pc = .ok (rv, pc1))
    (hcs : sortOf c = some (.bv cw))
    (hrs : sortOf rv.termOf = some (.bv rw)) :
    SymbolicExecutor.evalAtom (.opA .div coef rval) store pc expectedSort =
      .ok (tmk .BV_SDIV [c, rv.termOf],
        pc1 ++
          [tmk .DISTINCT [rv.termOf, mkBvZero (.bv rw)],
           tmk .NOT [tmk .AND [tmk .EQUAL [c, mkBvMinSigned (.bv cw)],
             tmk .EQUAL [rv.termOf, .bvVal (.bv rw) (-1)]]]]) ∧
    SymbolicExecutor.evalAtom (.opA .mod coef rval) store pc expectedSort =
      .ok (tmk .BV_SREM [c, rv.termOf],
        pc1 ++
          [tmk .DISTINCT [rv.termOf, mkBvZero (.bv rw)],
           tmk .NOT [tmk .AND [tmk .EQUAL [c, mkBvMinSigned (.bv cw)],
             tmk .EQUAL [rv.termOf, .bvVal (.bv rw) (-1)]]]]) := by
  have hcs' : SymbolicExecutor.getSortT c = .ok (.bv cw) := by
    simp [SymbolicExecutor.getSortT, hcs]
  have hrs' : SymbolicExecutor.getSortT rv.termOf = .ok (.bv rw) := by
    simp [SymbolicExecutor.getSortT, hrs]
  constructor <;>
    simp [SymbolicExecutor.evalAtom, hc, hr, hcs', hrs', bind, Except.bind,
      SmtSort.isFp, pure, Except.pure]

/-- C2 witness: `7 / %r` over a 32-bit store pushes exactly the two
side conditions and yields the signed division term. -/
theorem C2_witness :
    SymbolicExecutor.evalAtom (.opA .div (.intLit 7) ⟨"%r", []⟩) c2store []
        (some (.bv 32)) =
      .ok (tmk .BV_SDIV [.bvVal (.bv 32) 7, .const (.bv 32) "%r"],
        [tmk .DISTINCT [.const (.bv 32) "%r", mkBvZero (.bv 32)],
         tmk .NOT [tmk .AND [tmk .EQUAL [.bvVal (.bv 32) 7, mkBvMinSigned (.bv 32)],
           tmk .EQUAL [.const (.bv 32) "%r", .bvVal (.bv 32) (-1)]]]]) :=
  (C2_div_mod_ub (.intLit 7) ⟨"%r", []⟩ c2store [] (some (.bv 32))
    (.bvVal (.bv 32) 7) (.scalar (.const (.bv 32) "%r") .tru) [] 32 32
    rfl rfl rfl rfl).1

set_option maxHeartbeats 1000000 in
/-- C10: the value an `Assign` writes is a scalar whose `is_defined`
flag is the constant true term, whatever the right-hand side was; after
assigning to a plain local, the stored definedness term evaluates to
true in every environment, even when the previous value was
undef-derived — assignment never propagates undefinedness into the
store. -/
theorem C10_assign_makes_defined (x : String) (rhs : Expr)
    (store : SymbolicExecutor.Store) (pc req : List Term)
    (told dold rhsT : Term) (ts : SmtSort) (pc2 : List Term)
    (hbase : SymbolicExecutor.lookupSV store x = some (.scalar told dold))
    (hsort : sortOf told = some ts)
    (hrhs : SymbolicExecutor.evalExpr rhs store pc (some ts) = .ok (rhsT, pc2)) :
    (∀ r2 : Term, SymbolicExecutor.assignValue r2 = .scalar r2 .tru) ∧
    SymbolicExecutor.execInstr (.assignI ⟨x, []⟩ rhs) store pc req =
      .ok (SymbolicExecutor.setSV store x
            (.scalar (tmk .ITE [.tru, rhsT, told]) (tmk .ITE [.tru, .tru, dold])),
        pc2, req) ∧
    SymbolicExecutor.lookupSV
        (SymbolicExecutor.setSV store x
          (.scalar (tmk .ITE [.tru, rhsT, told]) (tmk .ITE [.tru, .tru, dold]))) x =
      some (.scalar (tmk .ITE [.tru, rhsT, told]) (tmk .ITE [.tru, .tru, dold])) ∧
    (∀ env : String → Int,
      evalT env (tmk .ITE [.tru, .tru, dold]) = some (.b true)) := by
  have hat : SymbolicExecutor.storeAt store x = .ok (.scalar told dold) := by
    simp [SymbolicExecutor.storeAt, hbase]
  have hsort' : SymbolicExecutor.getSortT told = .ok ts := by
    simp [SymbolicExecutor.getSortT, hsort]
  refine ⟨fun _ => rfl, ?_, lookupSV_setSV_self store x _, fun env => rfl⟩
  simp only [SymbolicExecutor.execInstr, SymbolicExecutor.evalLValue,
    SymbolicExecutor.evalLValueGo, hat, hsort', hrhs, SymbolicExecutor.setLValue,
    bind, Except.bind]
  simp only [SymbolicExecutor.updateLValueRec]
  simp [SymbolicExecutor.muxSymbolicValue, SymbolicExecutor.assignValue,
    bind, Except.bind, pure, Except.pure, hrhs, tmk]

section ExecutorTheorems

open SymbolicExecutor

/-- Evaluation of a bitvector numeral built from a natural below the
width's range. -/
theorem evalT_bvVal_nat (env : String → Int) (w i : Nat) (h : i < 2 ^ w) :
    evalT env (.bvVal (.bv w) (i : Int)) = some (.bv w i) := by
  rw [evalT]
  have h2 : (i : Int) % ((2 : Int) ^ w) = i :=
    Int.emod_eq_of_lt (by positivity) (by exact_mod_cast h)
  have h3 : ((i : Int).emod ((2 : Int) ^ w)).toNat = i := by
    rw [show ((i : Int).emod ((2 : Int) ^ w)) = (i : Int) % ((2 : Int) ^ w) from rfl, h2]
    simp
  rw [h3]

/-- Evaluation of an `ITE` term whose condition evaluates to a boolean. -/
theorem evalT_ite (env : String → Int) (c a b : Term) (x : Bool)
    (hc : evalT env c = some (.b x)) :
    evalT env (tmk .ITE [c, a, b]) = (if x then evalT env a else evalT env b) := by
  simp only [tmk]
  rw [evalT, hc]
  cases x <;> simp

/-- Evaluation of an equality term over two same-width bitvectors. -/
theorem evalT_eq_bv (env : String → Int) (a b : Term) (w va vb : Nat)
    (ha : evalT env a = some (.bv w va)) (hb : evalT env b = some (.bv w vb)) :
    evalT env (tmk .EQUAL [a, b]) = some (.b (decide (va = vb))) := by
  simp only [tmk]
  rw [evalT, ha, hb]
  simp

/-- The `ITE` chain `mergeAggregate` builds over indices `i, i+1, …`
selects exactly the element the index evaluates to, and falls back to
the seed term outside that window. -/
theorem mergeScalarGo_eval (env : String → Int) (idxT : Term) (w k : Nat)
    (hidx : evalT env idxT = some (.bv w k)) :
    ∀ (rest : List SymVal) (i : Nat) (res defd : Term),
      i + rest.length ≤ 2 ^ w →
      ((∀ j e, rest.get? j = some e → k = i + j →
          evalT env (mergeScalarGo (.bv w) idxT i rest (res, defd)).1 =
            evalT env e.termOf) ∧
       ((k < i ∨ i + rest.length ≤ k) →
          evalT env (mergeScalarGo (.bv w) idxT i rest (res, defd)).1 =
            evalT env res)) := by
  intro rest
  induction rest with
  | nil =>
    intro i res defd _
    exact ⟨fun j e hj _ => by simp at hj, fun _ => rfl⟩
  | cons e es ih =>
    intro i res defd hb
    have hiw : i < 2 ^ w := by
      simp only [List.length_cons] at hb
      omega
    have hcond : evalT env (tmk .EQUAL [idxT, .bvVal (.bv w) (i : Int)]) =
        some (.b (decide (k = i))) :=
      evalT_eq_bv env idxT (.bvVal (.bv w) (i : Int)) w k i hidx
        (evalT_bvVal_nat env w i hiw)
    have hres' :
        evalT env (tmk .ITE [tmk .EQUAL [idxT, .bvVal (.bv w) (i : Int)], e.termOf, res]) =
          (if k = i then evalT env e.termOf else evalT env res) := by
      rw [evalT_ite env _ _ _ _ hcond]
      by_cases hk : k = i <;> simp [hk]
    have hstep :
        mergeScalarGo (.bv w) idxT i (e :: es) (res, defd) =
          mergeScalarGo (.bv w) idxT (i + 1) es
            (tmk .ITE [tmk .EQUAL [idxT, .bvVal (.bv w) (i : Int)], e.termOf, res],
             tmk .ITE [tmk .EQUAL [idxT, .bvVal (.bv w) (i : Int)], e.definedOf, defd]) := rfl
    have hb' : (i + 1) + es.length ≤ 2 ^ w := by
      simp only [List.length_cons] at hb
      omega
    obtain ⟨ihA, ihB⟩ := ih (i + 1)
      (tmk .ITE [tmk .EQUAL [idxT, .bvVal (.bv w) (i : Int)], e.termOf, res])
      (tmk .ITE [tmk .EQUAL [idxT, .bvVal (.bv w) (i : Int)], e.definedOf, defd]) hb'
    constructor
    · intro j e2 hj hkij
      rw [hstep]
      cases j with
      | zero =>
        simp only [List.get?] at hj
        injection hj with hj
        subst hj
        have hki : k = i := by omega
        rw [ihB (by omega), hres', if_pos hki]
      | succ j' =>
        simp only [List.get?] at hj
        exact ihA j' e2 hj (by omega)
    · intro hout
      rw [hstep]
      have hki : ¬k = i := by
        simp only [List.length_cons] at hout
        omega
      rw [ihB (by simp only [List.length_cons] at hout; omega), hres', if_neg hki]

/-- C1: reading an array lvalue through a non-literal index produces the
merged value — a nested `ITE` chain over the index term that evaluates
to `elements[k]` under any environment where the index evaluates to
`k < n` and to `elements[0]` when the index lies at or above `n` — and
pushes the two signed bounds constraints `0 ≤ t` and `t < n` onto the
path constraints; the final conjunct shows the merge recursing into an
aggregate (two-by-two) element type, every leaf becoming an `ITE`
tree. -/
theorem C1_symbolic_index_read (base : String) (idv : LocalOrSymId)
    (store : Store) (pc : List Term) (t0 d0 t dt : Term)
    (rest : List SymVal) (w : Nat)
    (hbase : lookupSV store base = some (.array (.scalar t0 d0 :: rest)))
    (hidx : lookupSV store idv.name = some (.scalar t dt))
    (hw : sortOf t = some (.bv w))
    (hn : rest.length + 1 ≤ 2 ^ w) :
    (∃ M D : Term,
      evalLValue ⟨base, [.index (.id idv)]⟩ store pc =
        .ok (.scalar M D,
          pc ++ [tmk .BV_SLE [mkBvZero (.bv w), t],
            tmk .BV_SLT [t, .bvVal (.bv w) ((rest.length + 1 : Nat) : Int)]]) ∧
      (∀ (env : String → Int) (k : Nat), evalT env t = some (.bv w k) →
        ((∀ e, (SymVal.scalar t0 d0 :: rest).get? k = some e →
            evalT env M = evalT env e.termOf) ∧
         (rest.length + 1 ≤ k → evalT env M = evalT env t0)))) ∧
    evalLValue ⟨"%a2", [.index (.id (.loc "%i"))]⟩ c1store [] =
      .ok (.array
        [.scalar (tmk .ITE [tmk .EQUAL [.const (.bv 32) "%i", .bvVal (.bv 32) 1],
            .const (.bv 32) "c", .const (.bv 32) "a"])
          (tmk .ITE [tmk .EQUAL [.const (.bv 32) "%i", .bvVal (.bv 32) 1], .tru, .tru]),
         .scalar (tmk .ITE [tmk .EQUAL [.const (.bv 32) "%i", .bvVal (.bv 32) 1],
            .const (.bv 32) "d", .const (.bv 32) "b"])
          (tmk .ITE [tmk .EQUAL [.const (.bv 32) "%i", .bvVal (.bv 32) 1], .tru, .tru])],
        [tmk .BV_SLE [mkBvZero (.bv 32), .const (.bv 32) "%i"],
         tmk .BV_SLT [.const (.bv 32) "%i", .bvVal (.bv 32) 2]]) := by
  refine ⟨?_, rfl⟩
  rcases hms : mergeScalarGo (.bv w) t 1 rest (t0, d0) with ⟨M, D⟩
  refine ⟨M, D, ?_, ?_⟩
  · have hat : storeAt store base = .ok (.array (.scalar t0 d0 :: rest)) := by
      simp [storeAt, hbase]
    have hat2 : storeAt store idv.name = .ok (.scalar t dt) := by
      simp [storeAt, hidx]
    have hw' : getSortT t = .ok (.bv w) := by
      simp [getSortT, hw]
    simp only [evalLValue, evalLValueGo, hat, hat2, mergeAggregate, mergeGo,
      SymVal.termOf, hw', hms, bind, Except.bind, pure, Except.pure]
    simp [List.length_cons]
  · intro env k hk
    obtain ⟨hA, hB⟩ := mergeScalarGo_eval env t w k hk rest 1 t0 d0 (by omega)
    rw [hms] at hA hB
    constructor
    · intro e he
      cases k with
      | zero =>
        simp only [List.get?] at he
        injection he with he
        subst he
        exact hB (Or.inl (by omega))
      | succ k' =>
        simp only [List.get?] at he
        exact hA k' e he (by omega)
    · intro hge
      exact hB (Or.inr (by omega))

/-- C1 witness: the theorem evaluated on a concrete three-element array
read through the symbolic index `%i`. -/
theorem C1_witness :
    ∃ M D : Term,
      evalLValue ⟨"%a", [.index (.id (.loc "%i"))]⟩ c1storeFlat [] =
        .ok (.scalar M D,
          [tmk .BV_SLE [mkBvZero (.bv 32), .const (.bv 32) "%i"],
           tmk .BV_SLT [.const (.bv 32) "%i", .bvVal (.bv 32) 3]]) ∧
      (∀ (env : String → Int) (k : Nat),
        evalT env (.const (.bv 32) "%i") = some (.bv 32 k) →
        ((∀ e, ([SymVal.scalar (.const (.bv 32) "a0") .tru,
                 .scalar (.const (.bv 32) "a1") .tru,
                 .scalar (.const (.bv 32) "a2") .tru] : List SymVal).get? k = some e →
            evalT env M = evalT env e.termOf) ∧
         (3 ≤ k → evalT env M = evalT env (.const (.bv 32) "a0")))) :=
  (C1_symbolic_index_read "%a" (.loc "%i") c1storeFlat []
    (.const (.bv 32) "a0") .tru (.const (.bv 32) "%i") .tru
    [.scalar (.const (.bv 32) "a1") .tru, .scalar (.const (.bv 32) "a2") .tru] 32
    rfl rfl rfl (by norm_num)).1

/-- A successful path walk visits only known labels and moves only along
matching branch terminators: success implies path well-formedness. -/
theorem walkPath_ok_wf (f : FunDecl) (cfg : Cfg) :
    ∀ (path : List String) (store : Store) (pc req : List Term)
      (r : Store × List Term × List Term),
      walkPath f cfg path store pc req = .ok r →
      pathWellFormedB f cfg path = true := by
  intro path
  induction path with
  | nil => intro _ _ _ _ _; rfl
  | cons l rest ih =>
    intro store pc req r h
    rw [walkPath] at h
    split at h
    · exact absurd h (by simp)
    · rename_i bi hIdx
      split at h
      · exact absurd h (by simp)
      · rename_i blk hBlk
        have hBlk2 : f.blocks[bi]? = some blk := by
          rw [← List.get?_eq_getElem?]
          exact hBlk
        simp only [bind, Except.bind] at h
        split at h
        · exact absurd h (by simp)
        · rename_i trip hEx
          obtain ⟨store1, pc1, req1⟩ := trip
          cases rest with
          | nil => simp [pathWellFormedB, hIdx]
          | cons next more =>
            cases hT : blk.term with
            | br cond dest thenL elseL isCond =>
              rw [hT] at h
              cases isCond with
              | false =>
                simp only [Bool.false_eq_true, if_false] at h
                by_cases hD : dest = next
                · rw [if_pos hD] at h
                  have hwf := ih store1 pc1 req1 r h
                  simp [pathWellFormedB, hIdx, hBlk2, hT, hD, hwf]
                · rw [if_neg hD] at h
                  exact absurd h (by simp)
              | true =>
                simp only [if_true] at h
                cases cond with
                | none => exact absurd h (by simp [bind, Except.bind])
                | some cc =>
                  simp only [bind, Except.bind] at h
                  split at h
                  · exact absurd h (by simp)
                  · rename_i p hC
                    obtain ⟨condT, pc2⟩ := p
                    by_cases hTh : thenL = next
                    · rw [if_pos hTh] at h
                      have hwf := ih store1 _ req1 r h
                      simp [pathWellFormedB, hIdx, hBlk2, hT, hTh, hwf]
                    · rw [if_neg hTh] at h
                      by_cases hEl : elseL = next
                      · rw [if_pos hEl] at h
                        have hwf := ih store1 _ req1 r h
                        simp [pathWellFormedB, hIdx, hBlk2, hT, hEl, hwf]
                      · rw [if_neg hEl] at h
                        exact absurd h (by simp)
            | ret value =>
              rw [hT] at h
              exact absurd h (by simp)
            | unreachable =>
              rw [hT] at h
              exact absurd h (by simp)

/-- C8: when the requested path is malformed against the function's CFG
(a label that does not resolve, a non-final block whose terminator is a
return or unreachable, or a consecutive pair that is not a branch edge),
`solve` surfaces an error to the caller, and the result is the same for
every solving stage — so no SMT check-sat query is issued. -/
theorem C8_malformed_path (prog : Program) (funcName : String)
    (path : List String) (fixedSyms : List (String × Int)) (f : FunDecl)
    (hf : prog.funs.find? (fun g => g.name = funcName) = some f)
    (hm : pathWellFormedB f (CfgBuild f).1 path = false) :
    ∃ msg : String,
      ∀ (R : Type) (finish : List Term → List Term → Store → R),
        solve finish prog funcName path fixedSyms = .error msg := by
  suffices hs : ∃ msg, solvePrep prog funcName path fixedSyms = .error msg by
    obtain ⟨msg, hmsg⟩ := hs
    exact ⟨msg, fun R finish => by simp [solve, hmsg, Except.map]⟩
  rw [solvePrep, hf]
  simp only [bind, Except.bind, pure, Except.pure]
  cases hS1 : setupSyms (structsOf prog) f.syms fixedSyms [] [] with
  | error e => exact ⟨e, rfl⟩
  | ok p1 =>
    obtain ⟨store1, pc1⟩ := p1
    dsimp only
    cases hS2 : setupParams (structsOf prog) f.params store1 with
    | error e => exact ⟨e, rfl⟩
    | ok store2 =>
      dsimp only
      cases hS3 : setupLets (structsOf prog) f.lets store2 with
      | error e => exact ⟨e, rfl⟩
      | ok store3 =>
        dsimp only
        rcases hCB : CfgBuild f with ⟨cfg, cfgDiags⟩
        rw [hCB] at hm
        dsimp only at hm ⊢
        by_cases hd : cfgDiags = []
        · rw [if_neg (by simp [hd])]
          cases hW : walkPath f cfg path store3 pc1 [] with
          | error e => exact ⟨e, rfl⟩
          | ok r =>
            exfalso
            have hwf := walkPath_ok_wf f cfg path store3 pc1 [] r hW
            rw [hwf] at hm
            exact absurd hm (by simp)
        · rw [if_pos (by simp [hd])]
          exact ⟨"CFG build failed", rfl⟩

/-- C8 witness: the path `^entry, ^entry` through a single-block
function ending in a return is malformed; `solve` fails identically for
every solving stage. -/
theorem C8_witness :
    ∃ msg : String,
      ∀ (R : Type) (finish : List Term → List Term → Store → R),
        solve finish c8prog "@g" ["^entry", "^entry"] [] = .error msg :=
  C8_malformed_path c8prog "@g" ["^entry", "^entry"] [] c8fun (by rfl) (by decide)

end ExecutorTheorems

/-- C10 witness: assigning the undef-derived `%x` to itself still stores
a definedness term that evaluates to true. -/
theorem C10_witness :
    SymbolicExecutor.execInstr (.assignI ⟨"%x", []⟩ c10rhs) c10store [] [] =
      .ok (SymbolicExecutor.setSV c10store "%x"
            (.scalar
              (tmk .ITE [.tru, .const (.bv 32) "undef", .const (.bv 32) "undef"])
              (tmk .ITE [.tru, .tru, .fls])),
        [], []) ∧
    (∀ env : String → Int,
      evalT env (tmk .ITE [.tru, .tru, .fls]) = some (.b true)) :=
  ⟨(C10_assign_makes_defined "%x" c10rhs c10store [] []
      (.const (.bv 32) "undef") .fls (.const (.bv 32) "undef") (.bv 32) []
      rfl rfl rfl).2.1,
   (C10_assign_makes_defined "%x" c10rhs c10store [] []
      (.const (.bv 32) "undef") .fls (.const (.bv 32) "undef") (.bv 32) []
      rfl rfl rfl).2.2.2⟩

end Symir
